import Mathlib

/-!
# Realm object store: AsyncQuery and RealmCoordinator

A shallow embedding of `src/Realm/ObjectStore/impl/async_query.cpp` and
`src/Realm/ObjectStore/impl/realm_coordinator.cpp`.

Conventions of the embedding:

* a member function becomes a function from the object state (and the state of the
  collaborators it reads) to the new state and the effects it had;
* calls on an observer (`update_ready`, `deliver`, `error`) are recorded as `Event`s;
* a `std::function<void()>` pushed onto `ret` is a value of `Action`, and `Action.run`
  is what calling it does;
* undefined behaviour (null dereference, out-of-range index) and a failed `REALM_ASSERT`
  are the result `none`.
-/

namespace realm

/-! ## Collaborators -/

/-- Modelled from the spec: `SharedGroup` is the transaction interface of the storage
engine (`realm/group_shared.hpp`, not part of the sources). This code reads its "current
transaction VersionId", `get_version_of_current_transaction()`; a VersionId is "totally
ordered" and "compared with `<`, `==` only", so it is a natural number here. -/
structure SharedGroup where
  version : Nat
deriving DecidableEq, Repr

/-- Modelled from the spec: `TableView` belongs to the query engine, not part of the
sources: "a live result-set handle", here whether it is attached and its rows (kept
abstract). -/
structure TableView where
  attached : Bool
  data : Nat
deriving DecidableEq, Repr

/-- Modelled from the spec: `SharedGroup::Handover<T>` (storage engine, not part of the
sources), a capsule that "wraps a T plus the VersionId at which it was produced". -/
structure Handover where
  version : Nat
  payload : Nat
deriving DecidableEq, Repr

/-- Modelled from the spec: `Results` is declared in `results.hpp`, not part of the
sources. The value `Results(realm, m_sort, imported table view)` is "a new result-set
view bound to the destination transaction"; it is kept here as the rows taken out of the
capsule together with the version stamp the capsule had. -/
structure Results where
  version : Nat
  data : Nat
deriving DecidableEq, Repr

/-- Modelled from the spec: `AsyncQueryCallback` is declared in `results.hpp`, which is
not part of the sources. An observer has a pointer identity (`id`), an owning thread
(what `is_for_current_thread()` tests) and the public flag `first_run`
("first delivery not yet made"). -/
structure AsyncQueryCallback where
  id : Nat
  thread : Nat
  first_run : Bool
deriving DecidableEq, Repr

/-- Modelled from the spec: `AsyncQueryCallback::is_for_current_thread()`, the
thread-affinity check, with the calling thread made explicit. -/
def AsyncQueryCallback.is_for_current_thread (callback : AsyncQueryCallback)
    (current : Nat) : Bool :=
  callback.thread == current

/-- A call made on an observer. -/
inductive Event where
  | update_ready (observer : Nat)
  | deliver (observer : Nat) (r : Results)
  | error (observer : Nat) (err : Nat)
deriving DecidableEq, Repr

/-- The observer a call is made on. -/
def Event.observer : Event → Nat
  | Event.update_ready observer => observer
  | Event.deliver observer _ => observer
  | Event.error observer _ => observer

/-- Modelled from the spec: `SharedGroup::export_for_handover(m_tv,
ConstSourcePayload::Copy)` "produces a capsule stamped with the producer transaction's
current VersionId" and the producer keeps its original. -/
def SharedGroup.export_for_handover (sg : SharedGroup) (tv : TableView) : Handover :=
  { version := sg.version, payload := tv.data }

/-- Modelled from the spec: `SharedGroup::import_from_handover`, followed by the
`Results` constructor. The call "yields the payload attached to that thread's
transaction"; checking staleness "is the caller's responsibility". What the storage
engine does with a capsule whose version is not that of the destination's transaction is
not told by the sources (a comment in `prepare_handover` calls such a capsule "no longer
usable due to the version not matching"). The function is total here and keeps the stamp
of the capsule; a statement that needs the two versions to agree says so. -/
def SharedGroup.import_from_handover (_sg : SharedGroup) (tv : Handover) : Results :=
  { version := tv.version, data := tv.payload }

/-! ## AsyncQuery -/

/-- The members of `AsyncQuery` (`m_sort` and `parent` are immutable and never read by
the functions below). `m_sg` is a pointer: `none` is `nullptr`, `some sg` carries the
present state of the `SharedGroup` pointed to. `m_error` is a `std::exception_ptr`:
`none` is the null pointer. -/
structure AsyncQuery where
  m_query_handover : Option Handover
  m_query : Option Nat
  m_tv : TableView
  m_callbacks : List AsyncQueryCallback
  m_tv_handover : List (Option Handover)
  m_version : Nat
  m_sg : Option SharedGroup
  m_error : Option Nat
  m_did_update : Bool
deriving DecidableEq, Repr

/-- The constructor `AsyncQuery::AsyncQuery(sort, handover, parent)`. -/
def AsyncQuery.new (handover : Handover) : AsyncQuery :=
  { m_query_handover := some handover
    m_query := none
    m_tv := { attached := false, data := 0 }
    m_callbacks := []
    m_tv_handover := []
    m_version := handover.version
    m_sg := none
    m_error := none
    m_did_update := false }

/-- A deferred delivery, one element of `ret`.
* `error cb err` is the closure `[error, cb]`: it owns the observer `cb`.
* `deliver slot r version` is the closure `[r, version, &sg, self, &callback]`:
  `callback` is a reference to the element `m_callbacks[slot]`, so the closure holds the
  position `slot`, not the observer. -/
inductive Action where
  | error (cb : AsyncQueryCallback) (err : Nat)
  | deliver (slot : Nat) (r : Results) (version : Nat)
deriving DecidableEq, Repr

/-- Calling an element of `ret`, when the query is in state `q` and the destination
`SharedGroup` in state `sg`. -/
def Action.run (q : AsyncQuery) (sg : SharedGroup) : Action → Option (List Event)
  | Action.error cb err => some [Event.error cb.id err]
  | Action.deliver slot r version =>
    if sg.version = version then
      match q.m_callbacks[slot]? with
      | some callback => some [Event.deliver callback.id r]
      | none => none
    else
      some []

/-- Whether an action is a result action for the observer in position `slot`. -/
def Action.is_result_for (slot : Nat) : Action → Bool
  | Action.error _ _ => false
  | Action.deliver j _ _ => j == slot

/-- Function `AsyncQuery::add_callback`. The result is the new state and the calls made
on observers. With an error set the observer is signalled and the `unique_ptr` argument
goes out of scope unregistered. -/
def AsyncQuery.add_callback (q : AsyncQuery) (callback : AsyncQueryCallback) :
    AsyncQuery × List Event :=
  match q.m_error with
  | some _ => (q, [Event.update_ready callback.id])
  | none =>
    ({ q with m_callbacks := q.m_callbacks ++ [callback]
              m_tv_handover := q.m_tv_handover ++ [none] }, [])

/-- The scan of `remove_callback` for the first `i` with
`m_callbacks[i].get() == &callback`, starting at position `i`. -/
def find_callback (callback : Nat) : List AsyncQueryCallback → Nat → Option Nat
  | [], _ => none
  | cb :: cbs, i => if cb.id = callback then some i else find_callback callback cbs (i + 1)

/-- The statements `v[i] = std::move(v.back()); v.pop_back();` on a vector `v`. -/
def swap_remove {α : Type} (v : List α) (i : Nat) : Option (List α) :=
  match v.getLast?, v[i]? with
  | some back, some _ => some (v.set i back).dropLast
  | _, _ => none

/-- Function `AsyncQuery::remove_callback`, the observer given by its pointer identity.
The result is `none` when `REALM_ASSERT(m_error)` fails or an index is out of range. -/
def AsyncQuery.remove_callback (q : AsyncQuery) (callback : Nat) :
    Option (AsyncQuery × Bool) :=
  match find_callback callback q.m_callbacks 0 with
  | some i =>
    match swap_remove q.m_callbacks i, swap_remove q.m_tv_handover i with
    | some cbs, some tvs =>
      some ({ q with m_callbacks := cbs, m_tv_handover := tvs }, !cbs.isEmpty)
    | _, _ => none
  | none =>
    match q.m_error with
    | some _ => some (q, !q.m_callbacks.isEmpty)
    | none => none

/-- The loop of `get_results`: `n` iterations are left, the next one is for index `i`.
The third component of the result tells whether the loop left through the `return` of
the stale branch. In the error branch `callback.release()` leaves a null pointer in
`m_callbacks[i]`; no later iteration reads that element and the list is cleared when
the loop is over, so the element is left in place here. -/
def get_results_loop (thread : Nat) (sg : SharedGroup) :
    Nat → Nat → AsyncQuery → List Action → Option (AsyncQuery × List Action × Bool)
  | 0, _, q, ret => some (q, ret, false)
  | n + 1, i, q, ret =>
    match q.m_callbacks[i]? with
    | none => none
    | some callback =>
      if !callback.is_for_current_thread thread then
        get_results_loop thread sg n (i + 1) q ret
      else
        match q.m_error with
        | some error =>
          get_results_loop thread sg n (i + 1) q (ret ++ [Action.error callback error])
        | none =>
          match q.m_tv_handover[i]? with
          | none => none
          | some none => get_results_loop thread sg n (i + 1) q ret
          | some (some tv) =>
            if tv.version < sg.version then
              some (q, ret, true)
            else
              get_results_loop thread sg n (i + 1)
                { q with m_tv_handover := q.m_tv_handover.set i none }
                (ret ++ [Action.deliver i (sg.import_from_handover tv) sg.version])

/-- Function `AsyncQuery::get_results(realm, sg, ret)` called on thread `thread`. -/
def AsyncQuery.get_results (q : AsyncQuery) (thread : Nat) (sg : SharedGroup)
    (ret : List Action) : Option (AsyncQuery × List Action) :=
  match get_results_loop thread sg q.m_callbacks.length 0 q ret with
  | none => none
  | some (q1, ret1, true) => some (q1, ret1)
  | some (q1, ret1, false) =>
    match q1.m_error with
    | some _ => some ({ q1 with m_callbacks := [], m_tv_handover := [] }, ret1)
    | none => some (q1, ret1)

/-- Function `AsyncQuery::prepare_update`. What the query engine computes is a
parameter: `changed` is the result of `m_tv.sync_if_needed()` and `rows` the rows of the
view after `sync_if_needed()` or `find_all()` (and the sort). -/
def AsyncQuery.prepare_update (q : AsyncQuery) (changed : Bool) (rows : Nat) :
    Option AsyncQuery :=
  match q.m_sg with
  | none => none
  | some _ =>
    if q.m_tv.attached then
      some { q with m_tv := { attached := true, data := rows }, m_did_update := changed }
    else
      some { q with m_tv := { attached := true, data := rows }, m_did_update := true }

/-- The condition under which `prepare_handover` exports a new capsule for an observer:
`m_did_update || callback.first_run || (tv && tv->version != version of m_sg)`. -/
def needs_handover (m_did_update : Bool) (sg : SharedGroup) (callback : AsyncQueryCallback)
    (tv : Option Handover) : Bool :=
  m_did_update || callback.first_run ||
    (match tv with
     | some t => t.version != sg.version
     | none => false)

/-- The loop of `prepare_handover`: `n` iterations are left, the next one is for index
`i`; `sg` is the `SharedGroup` that `m_sg` points to. -/
def prepare_handover_loop (sg : SharedGroup) :
    Nat → Nat → AsyncQuery → List Event → Option (AsyncQuery × List Event)
  | 0, _, q, ev => some (q, ev)
  | n + 1, i, q, ev =>
    match q.m_callbacks[i]?, q.m_tv_handover[i]? with
    | some callback, some tv =>
      let q1 :=
        if needs_handover q.m_did_update sg callback tv then
          { q with m_tv_handover := q.m_tv_handover.set i (some (sg.export_for_handover q.m_tv))
                   m_callbacks := q.m_callbacks.set i { callback with first_run := false } }
        else q
      let ev1 := if q.m_did_update then ev ++ [Event.update_ready callback.id] else ev
      prepare_handover_loop sg n (i + 1) q1 ev1
    | _, _ => none

/-- Function `AsyncQuery::prepare_handover`. -/
def AsyncQuery.prepare_handover (q : AsyncQuery) : Option (AsyncQuery × List Event) :=
  match q.m_sg with
  | none => none
  | some sg =>
    match prepare_handover_loop sg q.m_callbacks.length 0 q [] with
    | none => none
    | some (q1, ev) => some ({ q1 with m_version := sg.version }, ev)

/-- Function `AsyncQuery::set_error`. -/
def AsyncQuery.set_error (q : AsyncQuery) (err : Option Nat) : AsyncQuery × List Event :=
  match q.m_error with
  | none => ({ q with m_error := err },
             q.m_callbacks.map fun callback => Event.update_ready callback.id)
  | some _ => (q, [])

/-- Function `AsyncQuery::attach_to`. -/
def AsyncQuery.attach_to (q : AsyncQuery) (sg : SharedGroup) : Option AsyncQuery :=
  match q.m_sg, q.m_query_handover with
  | none, some h => some { q with m_query := some h.payload, m_query_handover := none,
                                  m_sg := some sg }
  | _, _ => none

/-- Function `AsyncQuery::detatch`. -/
def AsyncQuery.detatch (q : AsyncQuery) : Option AsyncQuery :=
  match q.m_sg, q.m_query with
  | some sg, some query =>
    some { q with m_query_handover := some { version := sg.version, payload := query },
                  m_query := none, m_sg := none }
  | _, _ => none

/-- Accessor `AsyncQuery::version()`. -/
def AsyncQuery.version (q : AsyncQuery) : Nat := q.m_version


/-! ## A query, its producer, one destination and the actions handed to the consumer -/

/-- An `AsyncQuery` together with what surrounds it: the destination `SharedGroup` that
`get_results` is called with, the vector `ret` that collects the actions, and the calls
made on observers so far. The producer's `SharedGroup` is the one `m_sg` points to. -/
structure System where
  query : AsyncQuery
  dest : SharedGroup
  ret : List Action
  log : List Event
deriving DecidableEq, Repr

/-- One step of a `System`. The two `advance` steps are the transactions moving on;
they are only possible to a version that is not smaller. `run k` calls `ret[k]`. -/
inductive Step where
  | producer_advance (version : Nat)
  | dest_advance (version : Nat)
  | prepare_handover
  | get_results (thread : Nat)
  | run (k : Nat)
deriving DecidableEq, Repr

/-- The effect of one step; `none` when the step is not possible. -/
def System.step (s : System) : Step → Option System
  | Step.producer_advance version =>
    match s.query.m_sg with
    | some sg =>
      if sg.version ≤ version then
        some { s with query := { s.query with m_sg := some { version := version } } }
      else none
    | none => none
  | Step.dest_advance version =>
    if s.dest.version ≤ version then some { s with dest := { version := version } } else none
  | Step.prepare_handover =>
    match s.query.prepare_handover with
    | some (q, ev) => some { s with query := q, log := s.log ++ ev }
    | none => none
  | Step.get_results thread =>
    match s.query.get_results thread s.dest s.ret with
    | some (q, ret) => some { s with query := q, ret := ret }
    | none => none
  | Step.run k =>
    match s.ret[k]? with
    | some a =>
      match a.run s.query s.dest with
      | some ev => some { s with log := s.log ++ ev }
      | none => none
    | none => none

/-- A sequence of steps. -/
def System.exec (s : System) : List Step → Option System
  | [] => some s
  | st :: rest =>
    match s.step st with
    | some s1 => s1.exec rest
    | none => none

/-- The version stamp of the result delivered by a call. -/
def Event.stamp : Event → Option Nat
  | Event.deliver _ r => some r.version
  | _ => none

/-! ## RealmCoordinator -/

/-- Modelled from the spec: `Realm::Config` is declared in `shared_realm.hpp`, not part
of the sources. These are the fields that the coordinator reads: the path, the
"read-only flag, in-memory flag, encryption key, schema version", whether "the opener
requests caching", and the schema. -/
structure Config where
  path : String
  read_only : Bool
  in_memory : Bool
  encryption_key : List Nat
  schema_version : Nat
  cache : Bool
  schema : Option Nat
deriving DecidableEq, Repr

/-- Modelled from the spec: `Realm`, the store handle, is declared in
`shared_realm.hpp`, not part of the sources. A handle has an identity (`id`), an "owning
thread", which is what `thread_id()` returns, and the configuration it was made with. -/
structure Realm where
  id : Nat
  thread_id : Nat
  config : Config
deriving DecidableEq, Repr

/-- A `std::weak_ptr<Realm>`: the object referred to, and whether the last
`shared_ptr` to it is gone. -/
structure WeakRealm where
  realm : Realm
  expired : Bool
deriving DecidableEq, Repr

/-- Method `std::weak_ptr::lock()`. -/
def WeakRealm.lock (w : WeakRealm) : Option Realm :=
  if w.expired then none else some w.realm

/-- Modelled from the spec: `ExternalCommitHelper` is declared in
`external_commit_helper.hpp`, which is not part of the sources. The commit notifier
keeps the store handles registered with it (add/remove a store handle registration). -/
structure ExternalCommitHelper where
  realms : List Nat
deriving DecidableEq, Repr

/-- Modelled from the spec: `ExternalCommitHelper::add_realm`. -/
def ExternalCommitHelper.add_realm (n : ExternalCommitHelper) (realm : Nat) :
    ExternalCommitHelper :=
  { realms := n.realms ++ [realm] }

/-- Modelled from the spec: `ExternalCommitHelper::remove_realm`. -/
def ExternalCommitHelper.remove_realm (n : ExternalCommitHelper) (realm : Nat) :
    ExternalCommitHelper :=
  { realms := n.realms.filter fun r => r != realm }

/-- The members of `RealmCoordinator`. -/
structure RealmCoordinator where
  m_config : Config
  m_notifier : Option ExternalCommitHelper
  m_cached_realms : List WeakRealm
deriving DecidableEq, Repr

/-- The constructor `RealmCoordinator::RealmCoordinator() = default`. -/
def RealmCoordinator.new : RealmCoordinator :=
  { m_config := { path := "", read_only := false, in_memory := false, encryption_key := [],
                  schema_version := 0, cache := false, schema := none }
    m_notifier := none
    m_cached_realms := [] }

/-- The `for` loop of `get_realm` over `m_cached_realms`: the first entry that is still
live and belongs to the calling thread. -/
def find_cached_realm (thread_id : Nat) : List WeakRealm → Option Realm
  | [] => none
  | weakRealm :: rest =>
    match weakRealm.lock with
    | some realm =>
      if realm.thread_id = thread_id then some realm else find_cached_realm thread_id rest
    | none => find_cached_realm thread_id rest

/-- Function `RealmCoordinator::get_realm(config)`, called on thread `thread_id`.
`NotVersioned` is the constant `ObjectStore::NotVersioned` (declared in
`object_store.hpp`) and `handle` the identity of the object that `std::make_shared`
allocates. The result is the state the coordinator is left in, and either the handle
returned or the message of the `MismatchedConfigException` thrown. -/
def RealmCoordinator.get_realm (c : RealmCoordinator) (NotVersioned : Nat) (config : Config)
    (thread_id : Nat) (handle : Nat) : RealmCoordinator × Except String Realm :=
  let checked : Except String RealmCoordinator :=
    if c.m_notifier.isNone && c.m_cached_realms.isEmpty then
      Except.ok { c with m_config := config
                         m_notifier := if !config.read_only then some { realms := [] }
                                       else c.m_notifier }
    else if c.m_config.read_only != config.read_only then
      Except.error "Realm at path already opened with different read permissions."
    else if c.m_config.in_memory != config.in_memory then
      Except.error "Realm at path already opened with different inMemory settings."
    else if c.m_config.encryption_key != config.encryption_key then
      Except.error "Realm at path already opened with a different encryption key."
    else if c.m_config.schema_version != config.schema_version
        && config.schema_version != NotVersioned then
      Except.error "Realm at path already opened with different schema version."
    else if false && c.m_config.schema != config.schema then
      Except.error "Realm at path already opened with different schema"
    else Except.ok c
  match checked with
  | Except.error msg => (c, Except.error msg)
  | Except.ok c1 =>
    match (if config.cache then find_cached_realm thread_id c1.m_cached_realms else none) with
    | some realm => (c1, Except.ok realm)
    | none =>
      let realm : Realm := { id := handle, thread_id := thread_id, config := config }
      let c2 := { c1 with m_notifier := c1.m_notifier.map fun n => n.add_realm realm.id }
      let c3 := if config.cache then
          { c2 with m_cached_realms := c2.m_cached_realms ++ [{ realm := realm, expired := false }] }
        else c2
      (c3, Except.ok realm)

/-- Function `RealmCoordinator::get_schema`. -/
def RealmCoordinator.get_schema (c : RealmCoordinator) : Option Nat :=
  if c.m_cached_realms.isEmpty then none else c.m_config.schema

/-- The loop of `unregister_realm`: `n` bounds the iterations that are left, the next
one is for index `i`. The size of the vector is read again in every iteration. -/
def unregister_realm_loop : Nat → Nat → List WeakRealm → List WeakRealm
  | 0, _, cached => cached
  | n + 1, i, cached =>
    match cached[i]?, cached.getLast? with
    | some weak, some back =>
      if weak.expired then
        unregister_realm_loop n (i + 1)
          (if i + 1 < cached.length then cached.set i back else cached).dropLast
      else
        unregister_realm_loop n (i + 1) cached
    | _, _ => cached

/-- Function `RealmCoordinator::unregister_realm(realm)`. -/
def RealmCoordinator.unregister_realm (c : RealmCoordinator) (realm : Nat) :
    RealmCoordinator :=
  { c with m_notifier := c.m_notifier.map fun n => n.remove_realm realm
           m_cached_realms := unregister_realm_loop c.m_cached_realms.length 0 c.m_cached_realms }

/-- Function `RealmCoordinator::send_commit_notifications`: nothing in the coordinator
changes; the result is `none` when `REALM_ASSERT(!m_config.read_only)` fails or
`m_notifier` is null. -/
def RealmCoordinator.send_commit_notifications (c : RealmCoordinator) : Option Unit :=
  if c.m_config.read_only then none
  else match c.m_notifier with
    | some _ => some ()
    | none => none

/-- The last `shared_ptr` to the handle `realm` is released: every `weak_ptr` to it is
expired from now on. -/
def RealmCoordinator.release (c : RealmCoordinator) (realm : Nat) : RealmCoordinator :=
  { c with m_cached_realms := c.m_cached_realms.map fun w =>
      if w.realm.id = realm then { w with expired := true } else w }

/-- What can happen to a coordinator between two calls. -/
inductive CoordinatorStep where
  | get_realm (config : Config) (thread_id : Nat) (handle : Nat)
  | unregister_realm (realm : Nat)
  | release (realm : Nat)
deriving DecidableEq, Repr

/-- The coordinator after one step. -/
def RealmCoordinator.step (NotVersioned : Nat) (c : RealmCoordinator) :
    CoordinatorStep → RealmCoordinator
  | CoordinatorStep.get_realm config thread_id handle =>
    (c.get_realm NotVersioned config thread_id handle).1
  | CoordinatorStep.unregister_realm realm => c.unregister_realm realm
  | CoordinatorStep.release realm => c.release realm

/-- The coordinator after a sequence of steps. -/
def RealmCoordinator.steps (NotVersioned : Nat) (c : RealmCoordinator) :
    List CoordinatorStep → RealmCoordinator
  | [] => c
  | st :: rest => (c.step NotVersioned st).steps NotVersioned rest

/-- The checks of `get_realm` before it looks for a handle: the first branch takes the
configuration of the opener as `m_config` and makes the notifier unless the opener is
read-only, the `else` branch compares the opener with `m_config` and throws. -/
def RealmCoordinator.validate (c : RealmCoordinator) (NotVersioned : Nat) (config : Config) :
    Except String RealmCoordinator :=
  if c.m_notifier.isNone && c.m_cached_realms.isEmpty then
    Except.ok { c with m_config := config
                       m_notifier := if !config.read_only then some { realms := [] }
                                     else c.m_notifier }
  else if c.m_config.read_only != config.read_only then
    Except.error "Realm at path already opened with different read permissions."
  else if c.m_config.in_memory != config.in_memory then
    Except.error "Realm at path already opened with different inMemory settings."
  else if c.m_config.encryption_key != config.encryption_key then
    Except.error "Realm at path already opened with a different encryption key."
  else if c.m_config.schema_version != config.schema_version
      && config.schema_version != NotVersioned then
    Except.error "Realm at path already opened with different schema version."
  else if false && c.m_config.schema != config.schema then
    Except.error "Realm at path already opened with different schema"
  else Except.ok c

/-- Whether an entry of the cached-handle list is live and belongs to thread
`thread_id`: the test that the loop of `get_realm` makes on it. -/
def live_for_thread (thread_id : Nat) (w : WeakRealm) : Bool :=
  !w.expired && w.realm.thread_id == thread_id

/-! ## Sequences of calls on an AsyncQuery -/

/-- A call of a member function of `AsyncQuery`, or the producer's transaction moving to
another version (`producer_version`). -/
inductive Operation where
  | add_callback (callback : AsyncQueryCallback)
  | remove_callback (callback : Nat)
  | prepare_update (changed : Bool) (rows : Nat)
  | prepare_handover
  | get_results (thread : Nat) (sg : SharedGroup)
  | set_error (err : Option Nat)
  | attach_to (sg : SharedGroup)
  | detatch
  | producer_version (version : Nat)
deriving DecidableEq, Repr

/-- The query after one operation; `none` when the call is not defined (undefined
behaviour or a failed assertion). -/
def AsyncQuery.apply (q : AsyncQuery) : Operation → Option AsyncQuery
  | Operation.add_callback callback => some (q.add_callback callback).1
  | Operation.remove_callback callback => (q.remove_callback callback).map fun r => r.1
  | Operation.prepare_update changed rows => q.prepare_update changed rows
  | Operation.prepare_handover => q.prepare_handover.map fun r => r.1
  | Operation.get_results thread sg => (q.get_results thread sg []).map fun r => r.1
  | Operation.set_error err => some (q.set_error err).1
  | Operation.attach_to sg => q.attach_to sg
  | Operation.detatch => q.detatch
  | Operation.producer_version version =>
    match q.m_sg with
    | some _ => some { q with m_sg := some { version := version } }
    | none => none

/-- The query after a sequence of operations. -/
def AsyncQuery.apply_all (q : AsyncQuery) : List Operation → Option AsyncQuery
  | [] => some q
  | op :: rest =>
    match q.apply op with
    | some q1 => q1.apply_all rest
    | none => none

/-! ## The registry of coordinators -/

/-- The static `s_coordinators_per_path` together with the coordinator objects.
* `s_coordinators_per_path` is a `std::map` from the path to a `weak_ptr`; a `weak_ptr`
  is the identity of the object it refers to. The map has one entry per path; the order
  in which it keeps them (by key) is not kept here, it only decides the order in which
  `clear_cache` closes the handles.
* `coordinators` holds the coordinator objects that are alive, that is, held by at least
  one `shared_ptr`, under their identity; a `weak_ptr` is expired when its object is not
  there.
* `next` is the identity of the object that the next `std::make_shared` allocates.
* `handed_out` is not read by any function: it records, for the statements about the
  registry, the instances that `get_coordinator` has returned since the last
  `clear_cache`, each with the path it was asked for. -/
structure Registry where
  s_coordinators_per_path : List (String × Nat)
  coordinators : List (Nat × RealmCoordinator)
  next : Nat
  handed_out : List (String × Nat)
deriving DecidableEq, Repr

/-- The registry when the process starts. -/
def Registry.empty : Registry :=
  { s_coordinators_per_path := [], coordinators := [], next := 0, handed_out := [] }

/-- Method `std::weak_ptr::lock()` on a `weak_ptr` to a coordinator: the object, when it
is still alive. -/
def Registry.lock (w : Registry) (weak : Nat) : Option RealmCoordinator :=
  w.coordinators.lookup weak

/-- The assignment `map[path] = weak` on a `std::map`: the entry of `path` is replaced,
or a new entry is made. -/
def map_assign (path : String) (weak : Nat) : List (String × Nat) → List (String × Nat)
  | [] => [(path, weak)]
  | (k, v) :: rest =>
    if k = path then (path, weak) :: rest
    else (k, v) :: map_assign path weak rest

/-- Function `RealmCoordinator::get_coordinator(path)`: the registry afterwards and the
identity of the coordinator returned. -/
def Registry.get_coordinator (w : Registry) (path : String) : Registry × Nat :=
  let coordinator : Option Nat :=
    match w.s_coordinators_per_path.lookup path with
    | some weak => if (w.lock weak).isSome then some weak else none
    | none => none
  match coordinator with
  | some c => ({ w with handed_out := w.handed_out ++ [(path, c)] }, c)
  | none =>
    ({ s_coordinators_per_path := map_assign path w.next w.s_coordinators_per_path
       coordinators := w.coordinators ++ [(w.next, RealmCoordinator.new)]
       next := w.next + 1
       handed_out := w.handed_out ++ [(path, w.next)] }, w.next)

/-- Function `RealmCoordinator::get_existing_coordinator(path)`. -/
def Registry.get_existing_coordinator (w : Registry) (path : String) : Option Nat :=
  match w.s_coordinators_per_path.lookup path with
  | some weak => if (w.lock weak).isSome then some weak else none
  | none => none

/-- The last `shared_ptr` to the coordinator `c` is released: every `weak_ptr` to it is
expired from now on. Its destructor runs afterwards, see `Registry.destructor`. -/
def Registry.release (w : Registry) (c : Nat) : Registry :=
  { w with coordinators := w.coordinators.filter fun e => e.1 != c }

/-- The destructor `RealmCoordinator::~RealmCoordinator()`: the entries of the map whose
`weak_ptr` is expired are erased. -/
def Registry.destructor (w : Registry) : Registry :=
  { w with s_coordinators_per_path :=
      w.s_coordinators_per_path.filter fun e => (w.lock e.2).isSome }

/-- The handles gathered by the first loop of `clear_cache`: for each entry of the map
whose coordinator is alive, the cached handles of that coordinator that are alive. -/
def Registry.realms_to_close (w : Registry) : List Realm :=
  w.s_coordinators_per_path.flatMap fun weak_coordinator =>
    match w.lock weak_coordinator.2 with
    | none => []
    | some coordinator => coordinator.m_cached_realms.filterMap WeakRealm.lock

/-- Function `RealmCoordinator::clear_cache()`: the registry afterwards and the handles
on which `close()` has been called, in the order of the calls. -/
def Registry.clear_cache (w : Registry) : Registry × List Realm :=
  ({ w with s_coordinators_per_path := [], handed_out := [] }, w.realms_to_close)

/-- A member function is called on the coordinator `c`, or one of its handles is
released (see `CoordinatorStep`); nothing happens when `c` is not alive. -/
def Registry.on_coordinator (NotVersioned : Nat) (w : Registry) (c : Nat)
    (st : CoordinatorStep) : Registry :=
  { w with coordinators := w.coordinators.map fun e =>
      if e.1 = c then (e.1, e.2.step NotVersioned st) else e }

/-- What can happen to the registry. -/
inductive RegistryStep where
  | get_coordinator (path : String)
  | get_existing_coordinator (path : String)
  | clear_cache
  | release (c : Nat)
  | destructor
  | on_coordinator (c : Nat) (st : CoordinatorStep)
deriving DecidableEq, Repr

/-- The registry after one step. -/
def Registry.step (NotVersioned : Nat) (w : Registry) : RegistryStep → Registry
  | RegistryStep.get_coordinator path => (w.get_coordinator path).1
  | RegistryStep.get_existing_coordinator _ => w
  | RegistryStep.clear_cache => w.clear_cache.1
  | RegistryStep.release c => w.release c
  | RegistryStep.destructor => w.destructor
  | RegistryStep.on_coordinator c st => w.on_coordinator NotVersioned c st

/-- The registry after a sequence of steps. -/
def Registry.steps (NotVersioned : Nat) (w : Registry) : List RegistryStep → Registry
  | [] => w
  | st :: rest => (w.step NotVersioned st).steps NotVersioned rest

/-- What holds of the registry in every state it reaches: the objects referred to by
the map, the objects alive and the instances handed out were all allocated before
`next`, and an instance that was handed out for a path since the last `clear_cache` and
is still alive is the one the map has for that path. -/
def Registry.consistent (w : Registry) : Prop :=
  (∀ e ∈ w.s_coordinators_per_path, e.2 < w.next) ∧
  (∀ e ∈ w.coordinators, e.1 < w.next) ∧
  (∀ e ∈ w.handed_out, e.2 < w.next) ∧
  (∀ e ∈ w.handed_out, (w.lock e.2).isSome = true →
    w.s_coordinators_per_path.lookup e.1 = some e.2)

/-! ## Lemmas on lists and on the loops -/

theorem nodup_ids_index {cbs : List AsyncQueryCallback}
    (hnodup : (cbs.map AsyncQueryCallback.id).Nodup) {i j : Nat} {a b : AsyncQueryCallback}
    (hi : cbs[i]? = some a) (hj : cbs[j]? = some b) (hid : a.id = b.id) : i = j := by
  have hlt : i < (cbs.map AsyncQueryCallback.id).length := by
    rw [List.length_map]
    exact (List.getElem?_eq_some.1 hi).1
  apply List.getElem?_inj hlt hnodup
  rw [List.getElem?_map, List.getElem?_map, hi, hj]
  simp [hid]

theorem swap_remove_spec {α : Type} (v : List α) (i : Nat) (h : i < v.length) :
    ∃ w, swap_remove v i = some w ∧ w.length = v.length - 1 ∧
      ∀ j, w[j]? = if j < v.length - 1 then (if j = i then v[v.length - 1]? else v[j]?)
                   else none := by
  have hlast : v.length - 1 < v.length := by omega
  refine ⟨(v.set i v[v.length - 1]).dropLast, ?_, by simp, ?_⟩
  · simp [swap_remove, List.getLast?_eq_getElem?, List.getElem?_eq_getElem hlast,
      List.getElem?_eq_getElem h]
  · intro j
    rw [List.getElem?_dropLast, List.length_set]
    split
    · rw [List.getElem?_set]
      by_cases hji : j = i
      · subst hji
        simp [h, List.getElem?_eq_getElem hlast]
      · have : ¬ i = j := fun e => hji e.symm
        simp [hji, this]
    · rfl

theorem find_callback_some (callback : Nat) :
    ∀ (cbs : List AsyncQueryCallback) (k i : Nat), find_callback callback cbs k = some i →
      ∃ j cb, i = k + j ∧ cbs[j]? = some cb ∧ cb.id = callback := by
  intro cbs
  induction cbs with
  | nil => intro k i h; simp [find_callback] at h
  | cons c cbs ih =>
    intro k i h
    rw [find_callback] at h
    split at h
    · rename_i hc
      simp only [Option.some.injEq] at h
      exact ⟨0, c, by omega, by simp, hc⟩
    · obtain ⟨j, cb, h1, h2, h3⟩ := ih (k + 1) i h
      exact ⟨j + 1, cb, by omega, by simpa using h2, h3⟩

theorem find_callback_of_mem (callback : Nat) :
    ∀ (cbs : List AsyncQueryCallback) (k : Nat), (∃ cb ∈ cbs, cb.id = callback) →
      ∃ i, find_callback callback cbs k = some i := by
  intro cbs
  induction cbs with
  | nil => intro k h; simp at h
  | cons c cbs ih =>
    intro k h
    rw [find_callback]
    split
    · exact ⟨k, rfl⟩
    · rename_i hc
      obtain ⟨cb, hmem, hid⟩ := h
      rcases List.mem_cons.1 hmem with rfl | hmem
      · exact absurd hid hc
      · exact ih (k + 1) ⟨cb, hmem, hid⟩

/-- What `get_results_loop` leaves alone: everything but `m_tv_handover`, whose length
stays and whose slots are either untouched or emptied. -/
theorem get_results_loop_frame (thread : Nat) (sg : SharedGroup) :
    ∀ (n k : Nat) (q : AsyncQuery) (ret : List Action) (q1 : AsyncQuery) (ret1 : List Action)
      (b : Bool), get_results_loop thread sg n k q ret = some (q1, ret1, b) →
      q1 = { q with m_tv_handover := q1.m_tv_handover } ∧
      q1.m_tv_handover.length = q.m_tv_handover.length ∧
      ∀ j : Nat, q1.m_tv_handover[j]? = q.m_tv_handover[j]? ∨ q1.m_tv_handover[j]? = some none := by
  intro n
  induction n with
  | zero =>
    intro k q ret q1 ret1 b h
    simp only [get_results_loop, Option.some.injEq, Prod.mk.injEq] at h
    obtain ⟨rfl, -, -⟩ := h
    exact ⟨rfl, rfl, fun j => Or.inl rfl⟩
  | succ n ih =>
    intro k q ret q1 ret1 b h
    rw [get_results_loop] at h
    split at h
    · exact absurd h (by simp)
    · split at h
      · exact ih _ _ _ _ _ _ h
      · split at h
        · exact ih _ _ _ _ _ _ h
        · split at h
          · exact absurd h (by simp)
          · exact ih _ _ _ _ _ _ h
          · split at h
            · simp only [Option.some.injEq, Prod.mk.injEq] at h
              obtain ⟨rfl, -, -⟩ := h
              exact ⟨rfl, rfl, fun j => Or.inl rfl⟩
            · rename_i tv htv _
              obtain ⟨h1, h2, h3⟩ := ih _ _ _ _ _ _ h
              have hlt : k < q.m_tv_handover.length := (List.getElem?_eq_some.1 htv).1
              refine ⟨h1, by simpa using h2, fun j => ?_⟩
              rcases h3 j with h3 | h3
              · by_cases hkj : k = j
                · subst hkj
                  right
                  rw [h3]
                  exact List.getElem?_set_self hlt
                · left
                  rw [h3]
                  exact List.getElem?_set_ne hkj
              · exact Or.inr h3

/-- The actions that `get_results_loop` appends: an error action for the stored error
and an observer of the calling thread, or a result action for a slot that held a
capsule which was not stale, made at the version of the destination. -/
theorem get_results_loop_actions (thread : Nat) (sg : SharedGroup) :
    ∀ (n k : Nat) (q : AsyncQuery) (ret : List Action) (q1 : AsyncQuery) (ret1 : List Action)
      (b : Bool), get_results_loop thread sg n k q ret = some (q1, ret1, b) →
      ∃ new, ret1 = ret ++ new ∧ ∀ a ∈ new,
        (∃ cb e, a = Action.error cb e ∧ q.m_error = some e ∧ cb ∈ q.m_callbacks ∧
          cb.is_for_current_thread thread = true) ∨
        (∃ j tv, a = Action.deliver j (sg.import_from_handover tv) sg.version ∧ k ≤ j ∧
          q.m_tv_handover[j]? = some (some tv) ∧ ¬ tv.version < sg.version ∧
          q.m_error = none) := by
  intro n
  induction n with
  | zero =>
    intro k q ret q1 ret1 b h
    simp only [get_results_loop, Option.some.injEq, Prod.mk.injEq] at h
    obtain ⟨-, rfl, -⟩ := h
    exact ⟨[], by simp, by simp⟩
  | succ n ih =>
    intro k q ret q1 ret1 b h
    rw [get_results_loop] at h
    split at h
    · exact absurd h (by simp)
    · rename_i callback hcb
      split at h
      · obtain ⟨new, h1, h2⟩ := ih _ _ _ _ _ _ h
        refine ⟨new, h1, fun a ha => ?_⟩
        rcases h2 a ha with h2 | ⟨j, tv, e1, e2, e3⟩
        · exact Or.inl h2
        · exact Or.inr ⟨j, tv, e1, by omega, e3⟩
      · rename_i hon
        split at h
        · rename_i error herr
          obtain ⟨new, h1, h2⟩ := ih _ _ _ _ _ _ h
          refine ⟨Action.error callback error :: new, by simpa using h1, fun a ha => ?_⟩
          rcases List.mem_cons.1 ha with rfl | ha
          · exact Or.inl ⟨callback, error, rfl, herr, List.getElem?_mem hcb, by simpa using hon⟩
          · rcases h2 a ha with h2 | ⟨j, tv, e1, e2, e3⟩
            · exact Or.inl h2
            · exact Or.inr ⟨j, tv, e1, by omega, e3⟩
        · rename_i herr
          split at h
          · exact absurd h (by simp)
          · obtain ⟨new, h1, h2⟩ := ih _ _ _ _ _ _ h
            refine ⟨new, h1, fun a ha => ?_⟩
            rcases h2 a ha with h2 | ⟨j, tv, e1, e2, e3⟩
            · exact Or.inl h2
            · exact Or.inr ⟨j, tv, e1, by omega, e3⟩
          · rename_i tv htv
            split at h
            · simp only [Option.some.injEq, Prod.mk.injEq] at h
              obtain ⟨-, rfl, -⟩ := h
              exact ⟨[], by simp, by simp⟩
            · rename_i hfresh
              obtain ⟨new, h1, h2⟩ := ih _ _ _ _ _ _ h
              refine ⟨Action.deliver k (sg.import_from_handover tv) sg.version :: new,
                by simpa using h1, fun a ha => ?_⟩
              rcases List.mem_cons.1 ha with rfl | ha
              · exact Or.inr ⟨k, tv, rfl, le_refl _, htv, hfresh, herr⟩
              · rcases h2 a ha with ⟨cb, e, e1, e2, e3⟩ | ⟨j, tv1, e1, e2, e3, e4, e5⟩
                · exact Or.inl ⟨cb, e, e1, by simpa using e2, by simpa using e3⟩
                · refine Or.inr ⟨j, tv1, e1, by omega, ?_, e4, by simpa using e5⟩
                  have hkj : k ≠ j := by omega
                  simpa [List.getElem?_set_ne hkj] using e3

theorem get_results_loop_stale (thread : Nat) (sg : SharedGroup) (i : Nat)
    (callback : AsyncQueryCallback) (tv : Handover)
    (hstale : tv.version < sg.version) :
    ∀ (n k : Nat) (q : AsyncQuery) (ret : List Action),
      q.m_error = none → k + n = q.m_callbacks.length →
      q.m_callbacks.length = q.m_tv_handover.length →
      q.m_callbacks[i]? = some callback → q.m_tv_handover[i]? = some (some tv) →
      ∃ q1 new b, get_results_loop thread sg n k q ret = some (q1, ret ++ new, b) ∧
        (∀ a ∈ new, ∃ slot r version, a = Action.deliver slot r version ∧ slot ≠ i) ∧
        q1.m_tv_handover[i]? = some (some tv) ∧ q1.m_callbacks = q.m_callbacks ∧
        q1.m_error = none := by
  intro n
  induction n with
  | zero =>
    intro k q ret herr _ _ _ htv
    exact ⟨q, [], false, by simp [get_results_loop], by simp, htv, rfl, herr⟩
  | succ n ih =>
    intro k q ret herr hk hlen hcb htv
    have hk1 : k < q.m_callbacks.length := by omega
    have hk2 : k < q.m_tv_handover.length := by omega
    rw [get_results_loop, List.getElem?_eq_getElem hk1]
    simp only []
    split
    · exact ih (k + 1) q ret herr (by omega) hlen hcb htv
    · rename_i hon
      rw [herr]
      simp only []
      rw [List.getElem?_eq_getElem hk2]
      cases htk : q.m_tv_handover[k] with
      | none => exact ih (k + 1) q ret herr (by omega) hlen hcb htv
      | some t =>
        simp only []
        split
        · exact ⟨q, [], true, by simp, by simp, htv, rfl, herr⟩
        · rename_i hfresh
          have hki : k ≠ i := by
            rintro rfl
            rw [List.getElem?_eq_getElem hk2, htk] at htv
            simp only [Option.some.injEq] at htv
            subst htv
            exact hfresh hstale
          obtain ⟨q1, new, b, h1, h2, h3, h4, h5⟩ :=
            ih (k + 1) { q with m_tv_handover := q.m_tv_handover.set k none }
              (ret ++ [Action.deliver k (sg.import_from_handover t) sg.version]) herr
              (by simpa using by omega) (by simpa using hlen) hcb
              (by simpa [List.getElem?_set_ne hki] using htv)
          refine ⟨q1, Action.deliver k (sg.import_from_handover t) sg.version :: new, b,
            by simpa [herr] using h1, ?_, h3, h4, h5⟩
          intro a ha
          rcases List.mem_cons.1 ha with rfl | ha
          · exact ⟨k, _, _, rfl, hki⟩
          · exact h2 a ha

/-- What running a result action does: nothing, or one `deliver` on the observer now in
its slot, and this only at the version it was made for. -/
theorem run_deliver_events (q : AsyncQuery) (sg : SharedGroup) (slot : Nat) (r : Results)
    (version : Nat) (evs : List Event)
    (h : (Action.deliver slot r version).run q sg = some evs) :
    ∀ e ∈ evs, ∃ cb, q.m_callbacks[slot]? = some cb ∧ e = Event.deliver cb.id r ∧
      sg.version = version := by
  intro e he
  simp only [Action.run] at h
  split at h
  · rename_i hv
    split at h
    · rename_i cb hcb
      simp only [Option.some.injEq] at h
      subst h
      exact ⟨cb, hcb, by simpa using he, hv⟩
    · exact absurd h (by simp)
  · simp only [Option.some.injEq] at h
    subst h
    exact absurd he (by simp)

/-- The actions that `get_results` appends (see `get_results_loop_actions`). -/
theorem get_results_actions (q : AsyncQuery) (thread : Nat) (sg : SharedGroup)
    (ret : List Action) (q1 : AsyncQuery) (ret1 : List Action)
    (h : q.get_results thread sg ret = some (q1, ret1)) :
    ∃ new, ret1 = ret ++ new ∧ ∀ a ∈ new,
      (∃ cb e, a = Action.error cb e ∧ q.m_error = some e ∧ cb ∈ q.m_callbacks ∧
        cb.is_for_current_thread thread = true) ∨
      (∃ j tv, a = Action.deliver j (sg.import_from_handover tv) sg.version ∧
        q.m_tv_handover[j]? = some (some tv) ∧ ¬ tv.version < sg.version ∧
        q.m_error = none) := by
  unfold AsyncQuery.get_results at h
  split at h
  · exact absurd h (by simp)
  · rename_i q2 ret2 hloop
    simp only [Option.some.injEq, Prod.mk.injEq] at h
    obtain ⟨new, h1, h2⟩ := get_results_loop_actions thread sg _ _ _ _ _ _ _ hloop
    refine ⟨new, h.2 ▸ h1, fun a ha => ?_⟩
    rcases h2 a ha with h2 | ⟨j, tv, e1, -, e3⟩
    · exact Or.inl h2
    · exact Or.inr ⟨j, tv, e1, e3⟩
  · rename_i q2 ret2 hloop
    obtain ⟨new, h1, h2⟩ := get_results_loop_actions thread sg _ _ _ _ _ _ _ hloop
    have hret : ret1 = ret2 := by
      split at h <;> simp only [Option.some.injEq, Prod.mk.injEq] at h <;> exact h.2.symm
    refine ⟨new, hret ▸ h1, fun a ha => ?_⟩
    rcases h2 a ha with h2 | ⟨j, tv, e1, -, e3⟩
    · exact Or.inl h2
    · exact Or.inr ⟨j, tv, e1, e3⟩

/-- Without an error `get_results` changes nothing but `m_tv_handover`, where it empties
slots. -/
theorem get_results_frame (q : AsyncQuery) (thread : Nat) (sg : SharedGroup)
    (ret : List Action) (q1 : AsyncQuery) (ret1 : List Action) (herr : q.m_error = none)
    (h : q.get_results thread sg ret = some (q1, ret1)) :
    q1 = { q with m_tv_handover := q1.m_tv_handover } ∧
    q1.m_tv_handover.length = q.m_tv_handover.length ∧
    ∀ j : Nat, q1.m_tv_handover[j]? = q.m_tv_handover[j]? ∨ q1.m_tv_handover[j]? = some none := by
  unfold AsyncQuery.get_results at h
  split at h
  · exact absurd h (by simp)
  · rename_i q2 ret2 hloop
    simp only [Option.some.injEq, Prod.mk.injEq] at h
    obtain ⟨rfl, -⟩ := h
    exact get_results_loop_frame thread sg _ _ _ _ _ _ _ hloop
  · rename_i q2 ret2 hloop
    have hf := get_results_loop_frame thread sg _ _ _ _ _ _ _ hloop
    have herr2 : q2.m_error = none := by rw [hf.1]; exact herr
    rw [herr2] at h
    simp only [Option.some.injEq, Prod.mk.injEq] at h
    obtain ⟨rfl, -⟩ := h
    exact hf

/-- With an error set the loop of `get_results` appends one error action for every
observer of the calling thread from position `k` on, and changes nothing. -/
theorem get_results_loop_error (thread : Nat) (sg : SharedGroup) (e : Nat) :
    ∀ (n k : Nat) (q : AsyncQuery) (ret : List Action),
      q.m_error = some e → k + n = q.m_callbacks.length →
      get_results_loop thread sg n k q ret =
        some (q, ret ++ ((q.m_callbacks.drop k).filter
          fun cb => cb.is_for_current_thread thread).map (fun cb => Action.error cb e),
          false) := by
  intro n
  induction n with
  | zero =>
    intro k q ret _ hk
    have hdrop : q.m_callbacks.drop k = [] := List.drop_eq_nil_of_le (by omega)
    simp [get_results_loop, hdrop]
  | succ n ih =>
    intro k q ret herr hk
    have hk1 : k < q.m_callbacks.length := by omega
    have hdrop := List.drop_eq_getElem_cons hk1
    rw [get_results_loop, List.getElem?_eq_getElem hk1]
    simp only []
    split
    · rename_i hoff
      simp only [Bool.not_eq_true', Bool.not_eq_true] at hoff
      rw [ih (k + 1) q ret herr (by omega), hdrop]
      simp only [List.filter_cons, hoff, Bool.false_eq_true, if_false]
    · rename_i hon
      simp only [Bool.not_eq_true, Bool.not_eq_false'] at hon
      simp only [herr]
      rw [ih (k + 1) q _ herr (by omega), hdrop]
      simp only [List.filter_cons, hon, if_true, List.map_cons, List.append_assoc,
        List.singleton_append]

/-- What `prepare_handover_loop` does when it returns: it only touches the observers
and the capsules at the positions `k ≤ j < k + n`, where it exports a capsule and clears
`first_run` exactly when `needs_handover` holds. -/
theorem prepare_handover_loop_spec (sg : SharedGroup) :
    ∀ (n k : Nat) (q : AsyncQuery) (ev : List Event) (q1 : AsyncQuery) (ev1 : List Event),
      prepare_handover_loop sg n k q ev = some (q1, ev1) →
      q1 = { q with m_callbacks := q1.m_callbacks, m_tv_handover := q1.m_tv_handover } ∧
      q1.m_callbacks.length = q.m_callbacks.length ∧
      q1.m_tv_handover.length = q.m_tv_handover.length ∧
      (∀ j : Nat, j < k ∨ k + n ≤ j →
        q1.m_callbacks[j]? = q.m_callbacks[j]? ∧ q1.m_tv_handover[j]? = q.m_tv_handover[j]?) ∧
      (∀ (j : Nat) (cb : AsyncQueryCallback) (tv : Option Handover), k ≤ j → j < k + n →
        q.m_callbacks[j]? = some cb → q.m_tv_handover[j]? = some tv →
        q1.m_callbacks[j]? = some (if needs_handover q.m_did_update sg cb tv
          then { cb with first_run := false } else cb) ∧
        q1.m_tv_handover[j]? = some (if needs_handover q.m_did_update sg cb tv
          then some (sg.export_for_handover q.m_tv) else tv)) := by
  intro n
  induction n with
  | zero =>
    intro k q ev q1 ev1 h
    simp only [prepare_handover_loop, Option.some.injEq, Prod.mk.injEq] at h
    obtain ⟨rfl, -⟩ := h
    exact ⟨rfl, rfl, rfl, fun _ _ => ⟨rfl, rfl⟩, fun j _ _ h1 h2 => by omega⟩
  | succ n ih =>
    intro k q ev q1 ev1 h
    rw [prepare_handover_loop] at h
    split at h
    · rename_i callback tv hcb htv
      have hk1 : k < q.m_callbacks.length := (List.getElem?_eq_some.1 hcb).1
      have hk2 : k < q.m_tv_handover.length := (List.getElem?_eq_some.1 htv).1
      simp only [] at h
      obtain ⟨h1, h2, h3, h4, h5⟩ := ih _ _ _ _ _ h
      by_cases hneed : needs_handover q.m_did_update sg callback tv = true
      · simp only [hneed, if_true] at h1 h2 h3 h4 h5
        simp only [List.length_set] at h2 h3
        refine ⟨h1, h2, h3, fun j hj => ?_, fun j cb t hkj hjn hcbj htvj => ?_⟩
        · have hkj : k ≠ j := by omega
          obtain ⟨e1, e2⟩ := h4 j (by omega)
          rw [e1, e2]
          exact ⟨List.getElem?_set_ne hkj, List.getElem?_set_ne hkj⟩
        · by_cases hkj : k = j
          · subst hkj
            obtain ⟨e1, e2⟩ := h4 k (by omega)
            rw [hcb] at hcbj
            rw [htv] at htvj
            simp only [Option.some.injEq] at hcbj htvj
            subst hcbj htvj
            rw [e1, e2, hneed]
            exact ⟨List.getElem?_set_self hk1, List.getElem?_set_self hk2⟩
          · exact h5 j cb t (by omega) (by omega)
              (by rw [List.getElem?_set_ne hkj]; exact hcbj)
              (by rw [List.getElem?_set_ne hkj]; exact htvj)
      · simp only [hneed, Bool.false_eq_true, if_false] at h1 h2 h3 h4 h5
        refine ⟨h1, h2, h3, fun j hj => h4 j (by omega), fun j cb t hkj hjn hcbj htvj => ?_⟩
        by_cases hkj : k = j
        · subst hkj
          obtain ⟨e1, e2⟩ := h4 k (by omega)
          rw [hcb] at hcbj
          rw [htv] at htvj
          simp only [Option.some.injEq] at hcbj htvj
          subst hcbj htvj
          rw [e1, e2]
          simp only [hneed, Bool.false_eq_true, if_false]
          exact ⟨hcb, htv⟩
        · exact h5 j cb t (by omega) (by omega) hcbj htvj
    · exact absurd h (by simp)

/-- The loop of `prepare_handover` returns when the two lists have the same length. -/
theorem prepare_handover_loop_total (sg : SharedGroup) :
    ∀ (n k : Nat) (q : AsyncQuery) (ev : List Event),
      k + n ≤ q.m_callbacks.length → q.m_callbacks.length = q.m_tv_handover.length →
      ∃ r, prepare_handover_loop sg n k q ev = some r := by
  intro n
  induction n with
  | zero => intro k q ev _ _; exact ⟨_, rfl⟩
  | succ n ih =>
    intro k q ev hk hlen
    have hk1 : k < q.m_callbacks.length := by omega
    have hk2 : k < q.m_tv_handover.length := by omega
    rw [prepare_handover_loop, List.getElem?_eq_getElem hk1, List.getElem?_eq_getElem hk2]
    simp only []
    apply ih
    · split
      · simp only [List.length_set]; omega
      · omega
    · split
      · simp only [List.length_set]; exact hlen
      · exact hlen

/-- Function `prepare_handover` returns when the query is attached and the two lists
have the same length; what it does then. -/
theorem prepare_handover_spec (q : AsyncQuery) (sg : SharedGroup) (hsg : q.m_sg = some sg)
    (hlen : q.m_callbacks.length = q.m_tv_handover.length) :
    ∃ q1 ev, q.prepare_handover = some (q1, ev) ∧
      q1 = { q with m_callbacks := q1.m_callbacks, m_tv_handover := q1.m_tv_handover,
                    m_version := sg.version } ∧
      q1.m_callbacks.length = q.m_callbacks.length ∧
      q1.m_tv_handover.length = q.m_tv_handover.length ∧
      (∀ (j : Nat) (cb : AsyncQueryCallback) (tv : Option Handover),
        q.m_callbacks[j]? = some cb → q.m_tv_handover[j]? = some tv →
        q1.m_callbacks[j]? = some (if needs_handover q.m_did_update sg cb tv
          then { cb with first_run := false } else cb) ∧
        q1.m_tv_handover[j]? = some (if needs_handover q.m_did_update sg cb tv
          then some (sg.export_for_handover q.m_tv) else tv)) := by
  obtain ⟨⟨q2, ev⟩, hloop⟩ :=
    prepare_handover_loop_total sg q.m_callbacks.length 0 q [] (by omega) hlen
  obtain ⟨h1, h2, h3, -, h5⟩ := prepare_handover_loop_spec sg _ _ _ _ _ _ hloop
  refine ⟨{ q2 with m_version := sg.version }, ev, ?_, ?_, h2, h3, ?_⟩
  · simp only [AsyncQuery.prepare_handover, hsg, hloop]
  · rw [h1]
  · intro j cb tv hcb htv
    exact h5 j cb tv (Nat.zero_le _) (by simpa using (List.getElem?_eq_some.1 hcb).1) hcb htv

/-- After `prepare_handover` every pending capsule carries the version of the producer's
transaction. -/
theorem prepare_handover_stamped (q : AsyncQuery) (sg : SharedGroup) (q1 : AsyncQuery)
    (ev : List Event) (hsg : q.m_sg = some sg)
    (hlen : q.m_callbacks.length = q.m_tv_handover.length)
    (h : q.prepare_handover = some (q1, ev)) :
    ∀ (j : Nat) (t : Handover), q1.m_tv_handover[j]? = some (some t) →
      t.version = sg.version := by
  obtain ⟨q2, ev2, h1, -, h3, h4, h5⟩ := prepare_handover_spec q sg hsg hlen
  rw [h1] at h
  simp only [Option.some.injEq, Prod.mk.injEq] at h
  obtain ⟨rfl, -⟩ := h
  intro j t hj
  have hj1 : j < q.m_tv_handover.length := by
    rw [← h4]; exact (List.getElem?_eq_some.1 hj).1
  have hj2 : j < q.m_callbacks.length := by omega
  obtain ⟨-, e2⟩ := h5 j _ _ (List.getElem?_eq_getElem hj2) (List.getElem?_eq_getElem hj1)
  rw [e2] at hj
  simp only [Option.some.injEq] at hj
  split at hj
  · simp only [Option.some.injEq] at hj
    rw [← hj]
    rfl
  · rename_i hneed
    rw [hj] at hneed
    simp only [needs_handover, Bool.or_eq_true, not_or, bne_iff_ne, ne_eq, not_not] at hneed
    exact hneed.2

/-- Without an error the loop of `get_results` returns when the two lists have the same
length. -/
theorem get_results_loop_total (thread : Nat) (sg : SharedGroup) :
    ∀ (n k : Nat) (q : AsyncQuery) (ret : List Action),
      k + n ≤ q.m_callbacks.length → q.m_callbacks.length = q.m_tv_handover.length →
      ∃ r, get_results_loop thread sg n k q ret = some r := by
  intro n
  induction n with
  | zero => intro k q ret _ _; exact ⟨_, rfl⟩
  | succ n ih =>
    intro k q ret hk hlen
    have hk1 : k < q.m_callbacks.length := by omega
    have hk2 : k < q.m_tv_handover.length := by omega
    rw [get_results_loop, List.getElem?_eq_getElem hk1]
    simp only []
    split
    · exact ih _ _ _ (by omega) hlen
    · split
      · exact ih _ _ _ (by omega) hlen
      · rw [List.getElem?_eq_getElem hk2]
        cases q.m_tv_handover[k] with
        | none => exact ih _ _ _ (by omega) hlen
        | some t =>
          simp only []
          split
          · exact ⟨_, rfl⟩
          · exact ih _ _ _ (by simpa using by omega) (by simpa using hlen)

/-- Function `get_results` returns when the two lists have the same length. -/
theorem get_results_total (q : AsyncQuery) (thread : Nat) (sg : SharedGroup)
    (ret : List Action) (hlen : q.m_callbacks.length = q.m_tv_handover.length) :
    ∃ r, q.get_results thread sg ret = some r := by
  obtain ⟨⟨q1, ret1, b⟩, h⟩ :=
    get_results_loop_total thread sg q.m_callbacks.length 0 q ret (by omega) hlen
  unfold AsyncQuery.get_results
  rw [h]
  cases b
  · simp only []
    split <;> exact ⟨_, rfl⟩
  · exact ⟨_, rfl⟩

/-- When no pending capsule is stale, the loop of `get_results` runs to its end: every
observer of the calling thread from position `k` on has its slot emptied, and the one
among them that had a capsule gets exactly one result action. -/
theorem get_results_loop_fresh (thread : Nat) (sg : SharedGroup) :
    ∀ (n k : Nat) (q : AsyncQuery) (ret : List Action),
      q.m_error = none → k + n = q.m_callbacks.length →
      q.m_callbacks.length = q.m_tv_handover.length →
      (∀ (j : Nat) (t : Handover), q.m_tv_handover[j]? = some (some t) →
        ¬ t.version < sg.version) →
      ∃ q1 new, get_results_loop thread sg n k q ret = some (q1, ret ++ new, false) ∧
        ∀ (idx : Nat) (cb : AsyncQueryCallback) (t : Handover), k ≤ idx →
          q.m_callbacks[idx]? = some cb → cb.is_for_current_thread thread = true →
          q.m_tv_handover[idx]? = some (some t) →
          q1.m_tv_handover[idx]? = some none ∧
          new.filter (Action.is_result_for idx) =
            [Action.deliver idx (sg.import_from_handover t) sg.version] := by
  intro n
  induction n with
  | zero =>
    intro k q ret _ hk _ _
    refine ⟨q, [], by simp [get_results_loop], fun idx cb t hidx hcb _ _ => ?_⟩
    have := (List.getElem?_eq_some.1 hcb).1
    omega
  | succ n ih =>
    intro k q ret herr hk hlen hfresh
    have hk1 : k < q.m_callbacks.length := by omega
    have hk2 : k < q.m_tv_handover.length := by omega
    rw [get_results_loop, List.getElem?_eq_getElem hk1]
    simp only []
    split
    · rename_i hoff
      obtain ⟨q1, new, h1, h2⟩ := ih (k + 1) q ret herr (by omega) hlen hfresh
      refine ⟨q1, new, h1, fun idx cb t hidx hcb hon htv => ?_⟩
      have hne : idx ≠ k := by
        rintro rfl
        rw [List.getElem?_eq_getElem hk1] at hcb
        simp only [Option.some.injEq] at hcb
        rw [hcb, hon] at hoff
        simp at hoff
      exact h2 idx cb t (by omega) hcb hon htv
    · simp only [herr]
      rw [List.getElem?_eq_getElem hk2]
      cases htk : q.m_tv_handover[k] with
      | none =>
        obtain ⟨q1, new, h1, h2⟩ := ih (k + 1) q ret herr (by omega) hlen hfresh
        refine ⟨q1, new, h1, fun idx cb t hidx hcb hon htv => ?_⟩
        have hne : idx ≠ k := by
          rintro rfl
          rw [List.getElem?_eq_getElem hk2, htk] at htv
          simp at htv
        exact h2 idx cb t (by omega) hcb hon htv
      | some t0 =>
        have htk2 : q.m_tv_handover[k]? = some (some t0) := by
          rw [List.getElem?_eq_getElem hk2, htk]
        simp only [hfresh k t0 htk2, if_false]
        have hfresh2 : ∀ (j : Nat) (t : Handover),
            (q.m_tv_handover.set k none)[j]? = some (some t) → ¬ t.version < sg.version := by
          intro j t hj
          by_cases hkj : k = j
          · subst hkj
            rw [List.getElem?_set_self hk2] at hj
            simp at hj
          · rw [List.getElem?_set_ne hkj] at hj
            exact hfresh j t hj
        obtain ⟨q1, new, h1, h2⟩ :=
          ih (k + 1) { q with m_tv_handover := q.m_tv_handover.set k none }
            (ret ++ [Action.deliver k (sg.import_from_handover t0) sg.version]) herr
            (by simpa using by omega) (by simpa using hlen) hfresh2
        refine ⟨q1, Action.deliver k (sg.import_from_handover t0) sg.version :: new,
          by simpa [herr] using h1, fun idx cb t hidx hcb hon htv => ?_⟩
        by_cases hkidx : k = idx
        · subst hkidx
          rw [htk2] at htv
          simp only [Option.some.injEq] at htv
          subst htv
          obtain ⟨-, -, hslots⟩ := get_results_loop_frame thread sg _ _ _ _ _ _ _ h1
          obtain ⟨new2, hnew2, hact⟩ := get_results_loop_actions thread sg _ _ _ _ _ _ _ h1
          have hnew : new2 = new := by
            have := hnew2
            simp only [List.append_assoc] at this
            simpa using (List.append_cancel_left this).symm
          subst hnew
          constructor
          · rcases hslots k with e | e
            · rw [e]; exact List.getElem?_set_self hk2
            · exact e
          · rw [List.filter_cons]
            simp only [Action.is_result_for, beq_self_eq_true, if_true, List.cons.injEq,
              true_and, List.filter_eq_nil_iff]
            intro a ha
            rcases hact a ha with ⟨cb2, e, rfl, -⟩ | ⟨j, tv, rfl, hj, -⟩
            · simp [Action.is_result_for]
            · have : j ≠ k := by omega
              simp [Action.is_result_for, this]
        · obtain ⟨e1, e2⟩ := h2 idx cb t (by omega) hcb hon
            (by simpa [List.getElem?_set_ne hkidx] using htv)
          refine ⟨e1, ?_⟩
          rw [List.filter_cons]
          simp only [Action.is_result_for, beq_iff_eq, hkidx, if_false]
          exact e2

/-- Function `get_results` never changes `m_error`. -/
theorem get_results_error (q : AsyncQuery) (thread : Nat) (sg : SharedGroup)
    (ret : List Action) (r : AsyncQuery × List Action)
    (h : q.get_results thread sg ret = some r) : r.1.m_error = q.m_error := by
  unfold AsyncQuery.get_results at h
  split at h
  · exact absurd h (by simp)
  · rename_i q2 ret2 hloop
    simp only [Option.some.injEq] at h
    subst h
    rw [(get_results_loop_frame thread sg _ _ _ _ _ _ _ hloop).1]
  · rename_i q2 ret2 hloop
    have hq2 : q2.m_error = q.m_error := by
      rw [(get_results_loop_frame thread sg _ _ _ _ _ _ _ hloop).1]
    split at h <;> simp only [Option.some.injEq] at h <;> subst h <;> exact hq2

/-- Function `prepare_handover` never changes `m_error`. -/
theorem prepare_handover_error (q : AsyncQuery) (r : AsyncQuery × List Event)
    (h : q.prepare_handover = some r) : r.1.m_error = q.m_error := by
  unfold AsyncQuery.prepare_handover at h
  split at h
  · exact absurd h (by simp)
  · split at h
    · exact absurd h (by simp)
    · rename_i q1 ev hloop
      simp only [Option.some.injEq] at h
      subst h
      have := (prepare_handover_loop_spec _ _ _ _ _ _ _ hloop).1
      simp only []
      rw [this]

/-- Function `remove_callback` never changes `m_error`. -/
theorem remove_callback_error (q : AsyncQuery) (callback : Nat) (r : AsyncQuery × Bool)
    (h : q.remove_callback callback = some r) : r.1.m_error = q.m_error := by
  unfold AsyncQuery.remove_callback at h
  split at h
  · split at h
    · simp only [Option.some.injEq] at h
      subst h
      rfl
    · exact absurd h (by simp)
  · split at h
    · simp only [Option.some.injEq] at h
      subst h
      rfl
    · exact absurd h (by simp)

/-- Once the notifier exists, `get_realm` keeps it and keeps `m_config`. -/
theorem get_realm_keeps_notifier (NotVersioned : Nat) (c : RealmCoordinator) (config : Config)
    (thread_id handle : Nat) (h : c.m_notifier.isSome = true) :
    (c.get_realm NotVersioned config thread_id handle).1.m_notifier.isSome = true ∧
    (c.get_realm NotVersioned config thread_id handle).1.m_config = c.m_config := by
  have hn : c.m_notifier.isNone = false := by
    cases hc : c.m_notifier with
    | none => rw [hc] at h; exact absurd h (by simp)
    | some _ => rfl
  unfold RealmCoordinator.get_realm
  simp only [hn, Bool.false_and, Bool.false_eq_true, if_false]
  split
  · rename_i msg heq
    exact ⟨h, rfl⟩
  · rename_i c1 heq
    have hc1 : c1 = c := by
      split at heq
      · exact absurd heq (by simp)
      · split at heq
        · exact absurd heq (by simp)
        · split at heq
          · exact absurd heq (by simp)
          · split at heq
            · exact absurd heq (by simp)
            · simp only [Except.ok.injEq] at heq
              exact heq.symm
    subst hc1
    split
    · exact ⟨h, rfl⟩
    · split
      · refine ⟨?_, rfl⟩
        simp only [Option.isSome_map']
        exact h
      · refine ⟨?_, rfl⟩
        simp only [Option.isSome_map']
        exact h

/-- Once the notifier exists, every step keeps it and keeps `m_config`. -/
theorem step_keeps_notifier (NotVersioned : Nat) (c : RealmCoordinator) (st : CoordinatorStep)
    (h : c.m_notifier.isSome = true) :
    (c.step NotVersioned st).m_notifier.isSome = true ∧
    (c.step NotVersioned st).m_config = c.m_config := by
  cases st with
  | get_realm config thread_id handle =>
    exact get_realm_keeps_notifier NotVersioned c config thread_id handle h
  | unregister_realm realm =>
    refine ⟨?_, rfl⟩
    simp only [RealmCoordinator.step, RealmCoordinator.unregister_realm, Option.isSome_map']
    exact h
  | release realm => exact ⟨h, rfl⟩

/-- Once the notifier exists, every sequence of steps keeps it and keeps `m_config`. -/
theorem steps_keep_notifier (NotVersioned : Nat) (sts : List CoordinatorStep) :
    ∀ c : RealmCoordinator, c.m_notifier.isSome = true →
      (c.steps NotVersioned sts).m_notifier.isSome = true ∧
      (c.steps NotVersioned sts).m_config = c.m_config := by
  induction sts with
  | nil => intro c h; exact ⟨h, rfl⟩
  | cons st rest ih =>
    intro c h
    obtain ⟨h1, h2⟩ := step_keeps_notifier NotVersioned c st h
    obtain ⟨h3, h4⟩ := ih _ h1
    exact ⟨h3, h4.trans h2⟩

/-- The calls that the loop of `prepare_handover` makes are `update_ready` calls. -/
theorem prepare_handover_loop_events (sg : SharedGroup) :
    ∀ (n k : Nat) (q : AsyncQuery) (ev : List Event) (q1 : AsyncQuery) (ev1 : List Event),
      prepare_handover_loop sg n k q ev = some (q1, ev1) →
      ∃ extra, ev1 = ev ++ extra ∧ ∀ e ∈ extra, e.stamp = none := by
  intro n
  induction n with
  | zero =>
    intro k q ev q1 ev1 h
    simp only [prepare_handover_loop, Option.some.injEq, Prod.mk.injEq] at h
    exact ⟨[], by simp [h.2], by simp⟩
  | succ n ih =>
    intro k q ev q1 ev1 h
    rw [prepare_handover_loop] at h
    split at h
    · rename_i callback tv hcb htv
      simp only [] at h
      obtain ⟨extra, h1, h2⟩ := ih _ _ _ _ _ h
      split at h1
      · refine ⟨Event.update_ready callback.id :: extra, by simpa using h1, fun e he => ?_⟩
        rcases List.mem_cons.1 he with rfl | he
        · rfl
        · exact h2 e he
      · exact ⟨extra, h1, h2⟩
    · exact absurd h (by simp)

/-- What `prepare_handover` leaves when it returns on a query whose two lists have the
same length: the lists still have the same length, `m_sg` is what it was, `m_version`
is the version of the producer's transaction, which stamps every pending capsule, and
the calls made are `update_ready` calls. -/
theorem prepare_handover_keeps (q q1 : AsyncQuery) (ev : List Event)
    (hlen : q.m_callbacks.length = q.m_tv_handover.length)
    (h : q.prepare_handover = some (q1, ev)) :
    ∃ sg, q.m_sg = some sg ∧ q1.m_sg = some sg ∧ q1.m_version = sg.version ∧
      q1.m_callbacks.length = q1.m_tv_handover.length ∧
      (∀ t, some t ∈ q1.m_tv_handover → t.version = sg.version) ∧
      ∀ e ∈ ev, e.stamp = none := by
  cases hsg : q.m_sg with
  | none => simp [AsyncQuery.prepare_handover, hsg] at h
  | some sg =>
    have hstamp := prepare_handover_stamped q sg q1 ev hsg hlen h
    obtain ⟨q2, ev2, h1, h2, h3, h4, -⟩ := prepare_handover_spec q sg hsg hlen
    rw [h1] at h
    simp only [Option.some.injEq, Prod.mk.injEq] at h
    obtain ⟨rfl, rfl⟩ := h
    refine ⟨sg, rfl, by rw [h2]; exact hsg, by rw [h2], by rw [h3, h4]; exact hlen, ?_, ?_⟩
    · intro t ht
      obtain ⟨j, hj⟩ := List.mem_iff_getElem?.1 ht
      exact hstamp j t hj
    · unfold AsyncQuery.prepare_handover at h1
      rw [hsg] at h1
      simp only [] at h1
      split at h1
      · exact absurd h1 (by simp)
      · rename_i q3 ev3 hloop
        simp only [Option.some.injEq, Prod.mk.injEq] at h1
        obtain ⟨extra, e1, e2⟩ := prepare_handover_loop_events sg _ _ _ _ _ _ hloop
        rw [← h1.2, e1]
        simpa using e2

/-- What `get_results` leaves when it returns on a query whose two lists have the same
length: the lists still have the same length, `m_sg` and `m_version` are what they were,
and every pending capsule was pending before. -/
theorem get_results_keeps (q : AsyncQuery) (thread : Nat) (sg : SharedGroup)
    (ret : List Action) (q1 : AsyncQuery) (ret1 : List Action)
    (hlen : q.m_callbacks.length = q.m_tv_handover.length)
    (h : q.get_results thread sg ret = some (q1, ret1)) :
    q1.m_sg = q.m_sg ∧ q1.m_version = q.m_version ∧
    q1.m_callbacks.length = q1.m_tv_handover.length ∧
    ∀ t, some t ∈ q1.m_tv_handover → some t ∈ q.m_tv_handover := by
  have key : ∀ q2 : AsyncQuery, q2 = { q with m_tv_handover := q2.m_tv_handover } →
      q2.m_tv_handover.length = q.m_tv_handover.length →
      (∀ j : Nat, q2.m_tv_handover[j]? = q.m_tv_handover[j]? ∨
        q2.m_tv_handover[j]? = some none) →
      q2.m_sg = q.m_sg ∧ q2.m_version = q.m_version ∧
      q2.m_callbacks.length = q2.m_tv_handover.length ∧
      ∀ t, some t ∈ q2.m_tv_handover → some t ∈ q.m_tv_handover := by
    intro q2 h1 h2 h3
    refine ⟨by rw [h1], by rw [h1], by rw [h2, ← hlen, h1], fun t ht => ?_⟩
    obtain ⟨j, hj⟩ := List.mem_iff_getElem?.1 ht
    rcases h3 j with e | e
    · exact List.getElem?_mem (e ▸ hj)
    · rw [hj] at e
      simp at e
  unfold AsyncQuery.get_results at h
  split at h
  · exact absurd h (by simp)
  · rename_i q2 ret2 hloop
    simp only [Option.some.injEq, Prod.mk.injEq] at h
    obtain ⟨rfl, -⟩ := h
    obtain ⟨h1, h2, h3⟩ := get_results_loop_frame thread sg _ _ _ _ _ _ _ hloop
    exact key _ h1 h2 h3
  · rename_i q2 ret2 hloop
    obtain ⟨h1, h2, h3⟩ := get_results_loop_frame thread sg _ _ _ _ _ _ _ hloop
    obtain ⟨k1, k2, k3, k4⟩ := key _ h1 h2 h3
    split at h
    · simp only [Option.some.injEq, Prod.mk.injEq] at h
      obtain ⟨rfl, -⟩ := h
      exact ⟨k1, k2, rfl, fun t ht => by simp at ht⟩
    · simp only [Option.some.injEq, Prod.mk.injEq] at h
      obtain ⟨rfl, -⟩ := h
      exact ⟨k1, k2, k3, k4⟩

/-- Function `get_realm` written with `validate`. -/
theorem get_realm_unfold (c : RealmCoordinator) (NotVersioned : Nat) (config : Config)
    (thread_id handle : Nat) :
    c.get_realm NotVersioned config thread_id handle =
      match c.validate NotVersioned config with
      | Except.error msg => (c, Except.error msg)
      | Except.ok c1 =>
        match (if config.cache then find_cached_realm thread_id c1.m_cached_realms
               else none) with
        | some realm => (c1, Except.ok realm)
        | none =>
          (if config.cache then
            { c1 with
                m_notifier := c1.m_notifier.map fun n => n.add_realm handle
                m_cached_realms := c1.m_cached_realms ++
                  [{ realm := { id := handle, thread_id := thread_id, config := config }
                     expired := false }] }
           else { c1 with m_notifier := c1.m_notifier.map fun n => n.add_realm handle },
            Except.ok { id := handle, thread_id := thread_id, config := config }) :=
  rfl

/-- The first branch of the checks: no notifier and no cached handle. -/
theorem validate_first (c : RealmCoordinator) (NotVersioned : Nat) (config : Config)
    (hn : c.m_notifier = none) (hc : c.m_cached_realms = []) :
    c.validate NotVersioned config =
      Except.ok { c with m_config := config
                         m_notifier := if !config.read_only then some { realms := [] }
                                       else c.m_notifier } := by
  simp [RealmCoordinator.validate, hn, hc]

/-- The `else` branch of the checks: there is a notifier or a cached handle. -/
theorem validate_later (c : RealmCoordinator) (NotVersioned : Nat) (config : Config)
    (h : c.m_notifier.isSome = true ∨ c.m_cached_realms ≠ []) :
    c.validate NotVersioned config =
      if c.m_config.read_only ≠ config.read_only then
        Except.error "Realm at path already opened with different read permissions."
      else if c.m_config.in_memory ≠ config.in_memory then
        Except.error "Realm at path already opened with different inMemory settings."
      else if c.m_config.encryption_key ≠ config.encryption_key then
        Except.error "Realm at path already opened with a different encryption key."
      else if c.m_config.schema_version ≠ config.schema_version
          ∧ config.schema_version ≠ NotVersioned then
        Except.error "Realm at path already opened with different schema version."
      else Except.ok c := by
  have hcond : (c.m_notifier.isNone && c.m_cached_realms.isEmpty) = false := by
    rcases h with h | h
    · cases hc : c.m_notifier with
      | none => rw [hc] at h; exact absurd h (by simp)
      | some _ => rfl
    · cases hc : c.m_cached_realms with
      | nil => exact absurd hc h
      | cons _ _ => simp
  simp only [RealmCoordinator.validate, hcond, Bool.false_eq_true, if_false, bne_iff_ne,
    Bool.and_eq_true, Bool.false_and, ne_eq]

/-- When the checks return, they return the coordinator with at most `m_config` and
`m_notifier` changed, and the opener passes the checks of the `else` branch against the
`m_config` they leave. -/
theorem validate_ok (c c1 : RealmCoordinator) (NotVersioned : Nat) (config : Config)
    (h : c.validate NotVersioned config = Except.ok c1) :
    c1.m_cached_realms = c.m_cached_realms ∧
    (c.m_notifier.isSome = true → c1.m_notifier.isSome = true) ∧
    ((c.m_notifier.isSome = true ∨ c.m_cached_realms ≠ []) → c1 = c) ∧
    ∀ c2 : RealmCoordinator, c2.m_config = c1.m_config →
      (c2.m_notifier.isSome = true ∨ c2.m_cached_realms ≠ []) →
      c2.validate NotVersioned config = Except.ok c2 := by
  by_cases hb : c.m_notifier.isSome = true ∨ c.m_cached_realms ≠ []
  · rw [validate_later c NotVersioned config hb] at h
    split at h
    · exact absurd h (by simp)
    · split at h
      · exact absurd h (by simp)
      · split at h
        · exact absurd h (by simp)
        · split at h
          · exact absurd h (by simp)
          · rename_i h1 h2 h3 h4
            simp only [Except.ok.injEq] at h
            subst h
            refine ⟨rfl, fun x => x, fun _ => rfl, fun c2 hc2 hb2 => ?_⟩
            rw [validate_later c2 NotVersioned config hb2, hc2]
            simp only [h1, h2, h3, h4, if_false]
  · have hn : c.m_notifier = none := by
      cases hc : c.m_notifier with
      | none => rfl
      | some _ => exact absurd (Or.inl (by simp [hc])) hb
    have hc : c.m_cached_realms = [] := by
      by_contra hne
      exact hb (Or.inr hne)
    rw [validate_first c NotVersioned config hn hc] at h
    simp only [Except.ok.injEq] at h
    subst h
    refine ⟨rfl, fun x => by simp [hn] at x, fun x => absurd x hb, fun c2 hc2 hb2 => ?_⟩
    rw [validate_later c2 NotVersioned config hb2, hc2]
    simp

/-- A handle found in the cached list is alive, belongs to the calling thread, and is in
the list. -/
theorem find_cached_realm_some (thread_id : Nat) :
    ∀ (l : List WeakRealm) (r : Realm), find_cached_realm thread_id l = some r →
      r.thread_id = thread_id ∧ { realm := r, expired := false } ∈ l := by
  intro l
  induction l with
  | nil => intro r h; simp [find_cached_realm] at h
  | cons w rest ih =>
    intro r h
    rw [find_cached_realm] at h
    split at h
    · rename_i realm hlock
      have hw : w = { realm := realm, expired := false } := by
        unfold WeakRealm.lock at hlock
        split at hlock
        · exact absurd hlock (by simp)
        · rename_i hexp
          simp only [Option.some.injEq] at hlock
          subst hlock
          cases w
          simp_all
      split at h
      · rename_i ht
        simp only [Option.some.injEq] at h
        subst h
        exact ⟨ht, by rw [hw]; exact List.mem_cons_self _ _⟩
      · obtain ⟨h1, h2⟩ := ih r h
        exact ⟨h1, List.mem_cons_of_mem _ h2⟩
    · obtain ⟨h1, h2⟩ := ih r h
      exact ⟨h1, List.mem_cons_of_mem _ h2⟩

/-- No handle is found exactly when no entry of the list is alive and of the calling
thread. -/
theorem find_cached_realm_none (thread_id : Nat) :
    ∀ l : List WeakRealm, find_cached_realm thread_id l = none ↔
      ∀ w ∈ l, live_for_thread thread_id w = false := by
  intro l
  induction l with
  | nil => simp [find_cached_realm]
  | cons w rest ih =>
    rw [find_cached_realm]
    cases hexp : w.expired
    · simp only [WeakRealm.lock, hexp, Bool.false_eq_true, if_false, List.mem_cons,
        forall_eq_or_imp]
      by_cases ht : w.realm.thread_id = thread_id
      · simp [ht, live_for_thread, hexp]
      · simp [ht, live_for_thread, hexp, ih]
    · simp only [WeakRealm.lock, hexp, if_true, List.mem_cons, forall_eq_or_imp]
      simp [live_for_thread, hexp, ih]

/-- Looking for a handle in a list with one more entry at the end. -/
theorem find_cached_realm_append (thread_id : Nat) (w : WeakRealm) :
    ∀ l : List WeakRealm, find_cached_realm thread_id (l ++ [w]) =
      match find_cached_realm thread_id l with
      | some r => some r
      | none => find_cached_realm thread_id [w] := by
  intro l
  induction l with
  | nil => rfl
  | cons v rest ih =>
    rw [List.cons_append, find_cached_realm, find_cached_realm]
    split
    · split
      · rfl
      · exact ih
    · exact ih

/-- A handle returned by `get_realm` belongs to the calling thread. -/
theorem get_realm_thread (c : RealmCoordinator) (NotVersioned : Nat) (config : Config)
    (thread_id handle : Nat) (r : Realm)
    (h : (c.get_realm NotVersioned config thread_id handle).2 = Except.ok r) :
    r.thread_id = thread_id := by
  rw [get_realm_unfold] at h
  split at h
  · exact absurd h (by simp)
  · split at h
    · rename_i realm hfind
      simp only [Except.ok.injEq] at h
      subst h
      split at hfind
      · exact (find_cached_realm_some thread_id _ _ hfind).1
      · exact absurd hfind (by simp)
    · simp only [Except.ok.injEq] at h
      subst h
      rfl

/-- When `get_realm` with `cache = true` has returned a handle, the same call made again
returns that handle and changes nothing, and the checks pass for the same configuration
from any thread. -/
theorem get_realm_again (c : RealmCoordinator) (NotVersioned : Nat) (config : Config)
    (thread_id handle : Nat) (r : Realm) (hcache : config.cache = true)
    (h : (c.get_realm NotVersioned config thread_id handle).2 = Except.ok r) :
    (∀ handle2, (c.get_realm NotVersioned config thread_id handle).1.get_realm NotVersioned
        config thread_id handle2 =
      ((c.get_realm NotVersioned config thread_id handle).1, Except.ok r)) ∧
    (c.get_realm NotVersioned config thread_id handle).1.validate NotVersioned config =
      Except.ok (c.get_realm NotVersioned config thread_id handle).1 := by
  rw [get_realm_unfold] at h ⊢
  split at h
  · exact absurd h (by simp)
  · rename_i c1 hval
    simp only [hcache, if_true] at h ⊢
    obtain ⟨hc1, -, -, hagain⟩ := validate_ok c c1 NotVersioned config hval
    split at h
    · rename_i realm hfind
      simp only [Except.ok.injEq] at h
      subst h
      simp only [hfind]
      have hne : c1.m_cached_realms ≠ [] := by
        intro he
        rw [he] at hfind
        simp [find_cached_realm] at hfind
      have hv := hagain c1 rfl (Or.inr hne)
      refine ⟨fun handle2 => ?_, hv⟩
      rw [get_realm_unfold, hv]
      simp only [hcache, if_true, hfind]
    · rename_i hfind
      simp only [Except.ok.injEq] at h
      subst h
      simp only [hfind]
      have hv := hagain
        { c1 with
            m_notifier := c1.m_notifier.map fun n => n.add_realm handle
            m_cached_realms := c1.m_cached_realms ++
              [{ realm := { id := handle, thread_id := thread_id, config := config }
                 expired := false }] } rfl (Or.inr (by simp))
      refine ⟨fun handle2 => ?_, hv⟩
      rw [get_realm_unfold, hv]
      simp only [hcache, if_true]
      rw [find_cached_realm_append, hfind]
      simp [find_cached_realm, WeakRealm.lock]

/-- When the checks throw, `get_realm` throws the same and changes nothing; when they
pass, `get_realm` returns a handle. -/
theorem get_realm_of_validate (c : RealmCoordinator) (NotVersioned : Nat) (config : Config)
    (thread_id handle : Nat) :
    (∀ msg, c.validate NotVersioned config = Except.error msg →
      c.get_realm NotVersioned config thread_id handle = (c, Except.error msg)) ∧
    (∀ c1, c.validate NotVersioned config = Except.ok c1 →
      ∃ r, (c.get_realm NotVersioned config thread_id handle).2 = Except.ok r) := by
  rw [get_realm_unfold]
  constructor
  · intro msg h
    rw [h]
  · intro c1 h
    rw [h]
    simp only []
    split
    · exact ⟨_, rfl⟩
    · exact ⟨_, rfl⟩

/-- One turn of the loop of `unregister_realm` on an expired entry, `back` being the
last entry of `l`: `if (i + 1 < size) v[i] = std::move(v.back()); v.pop_back();` keeps
only entries that were there and, for any property, not more entries with it. -/
theorem swap_pop_le {α : Type} (p : α → Bool) (l : List α) (back : α) (i : Nat)
    (hback : l.getLast? = some back) :
    List.countP p (if i + 1 < l.length then l.set i back else l).dropLast ≤ List.countP p l ∧
    ∀ a ∈ (if i + 1 < l.length then l.set i back else l).dropLast, a ∈ l := by
  have hl : l.dropLast ++ [back] = l := List.dropLast_append_getLast? back hback
  split
  · rename_i hi
    have hd : i < l.dropLast.length := by
      rw [List.length_dropLast]; omega
    have hset : (l.set i back).dropLast = l.dropLast.set i back := by
      conv_lhs => rw [← hl]
      rw [List.set_append_left i back hd, List.dropLast_concat]
    rw [hset]
    constructor
    · conv_rhs => rw [← hl]
      rw [List.countP_set p _ i back hd, List.countP_append, List.countP_singleton]
      omega
    · intro a ha
      rcases List.mem_or_eq_of_mem_set ha with h | h
      · exact List.dropLast_subset l h
      · rw [h, ← hl]
        simp
  · exact ⟨List.Sublist.countP_le p (List.dropLast_sublist l),
      fun a ha => List.dropLast_subset l ha⟩

/-- The loop of `unregister_realm` keeps only entries that were there and, for any
property, not more entries with it. -/
theorem unregister_realm_loop_le (p : WeakRealm → Bool) :
    ∀ (n i : Nat) (l : List WeakRealm),
      List.countP p (unregister_realm_loop n i l) ≤ List.countP p l ∧
      ∀ a ∈ unregister_realm_loop n i l, a ∈ l := by
  intro n
  induction n with
  | zero => intro i l; exact ⟨le_refl _, fun a ha => ha⟩
  | succ n ih =>
    intro i l
    rw [unregister_realm_loop]
    split
    · rename_i weak back hweak hback
      split
      · obtain ⟨h1, h2⟩ := swap_pop_le p l back i hback
        obtain ⟨h3, h4⟩ :=
          ih (i + 1) (if i + 1 < l.length then l.set i back else l).dropLast
        exact ⟨le_trans h3 h1, fun a ha => h2 a (h4 a ha)⟩
      · exact ih (i + 1) l
    · exact ⟨le_refl _, fun a ha => ha⟩

/-- The state of the cached-handle list that every step keeps: every entry was opened
with `cache = true`, and for every thread at most one entry is live and of that
thread. -/
theorem step_keeps_one_per_thread (NotVersioned : Nat) (c : RealmCoordinator)
    (st : CoordinatorStep)
    (hcache : ∀ w ∈ c.m_cached_realms, w.realm.config.cache = true)
    (hone : ∀ t, List.countP (live_for_thread t) c.m_cached_realms ≤ 1) :
    (∀ w ∈ (c.step NotVersioned st).m_cached_realms, w.realm.config.cache = true) ∧
    ∀ t, List.countP (live_for_thread t) (c.step NotVersioned st).m_cached_realms ≤ 1 := by
  cases st with
  | get_realm config thread_id handle =>
    simp only [RealmCoordinator.step]
    rw [get_realm_unfold]
    split
    · exact ⟨hcache, hone⟩
    · rename_i c1 hval
      have hc1 : c1.m_cached_realms = c.m_cached_realms :=
        (validate_ok c c1 NotVersioned config hval).1
      split
      · simp only [hc1]
        exact ⟨hcache, hone⟩
      · rename_i hfind
        split
        · rename_i hc
          simp only [hc, if_true, hc1] at hfind ⊢
          have hnone := (find_cached_realm_none thread_id _).1 hfind
          constructor
          · intro w hw
            rcases List.mem_append.1 hw with hw | hw
            · exact hcache w hw
            · simp only [List.mem_singleton] at hw
              rw [hw]
              exact hc
          · intro t
            rw [List.countP_append, List.countP_singleton]
            by_cases ht : t = thread_id
            · subst ht
              have h0 : List.countP (live_for_thread t) c.m_cached_realms = 0 := by
                rw [List.countP_eq_zero]
                intro w hw
                rw [hnone w hw]
                simp
              rw [h0]
              split <;> omega
            · have hf : live_for_thread t
                  { realm := { id := handle, thread_id := thread_id, config := config }
                    expired := false } = false := by
                simp [live_for_thread]
                exact fun e => ht e.symm
              rw [hf]
              simpa using hone t
        · simp only [hc1]
          exact ⟨hcache, hone⟩
  | unregister_realm realm =>
    simp only [RealmCoordinator.step, RealmCoordinator.unregister_realm]
    constructor
    · intro w hw
      exact hcache w ((unregister_realm_loop_le (fun _ => true) _ _ _).2 w hw)
    · intro t
      exact le_trans (unregister_realm_loop_le (live_for_thread t) _ _ _).1 (hone t)
  | release realm =>
    simp only [RealmCoordinator.step, RealmCoordinator.release]
    constructor
    · intro w hw
      obtain ⟨v, hv, rfl⟩ := List.mem_map.1 hw
      have := hcache v hv
      split <;> exact this
    · intro t
      refine le_trans ?_ (hone t)
      rw [List.countP_map]
      apply List.countP_mono_left
      intro w _ hw
      simp only [Function.comp] at hw
      split at hw
      · simp [live_for_thread] at hw
      · exact hw

/-- Every sequence of steps keeps the state of `step_keeps_one_per_thread`. -/
theorem steps_keep_one_per_thread (NotVersioned : Nat) (sts : List CoordinatorStep) :
    ∀ c : RealmCoordinator,
      (∀ w ∈ c.m_cached_realms, w.realm.config.cache = true) →
      (∀ t, List.countP (live_for_thread t) c.m_cached_realms ≤ 1) →
      (∀ w ∈ (c.steps NotVersioned sts).m_cached_realms, w.realm.config.cache = true) ∧
      ∀ t, List.countP (live_for_thread t) (c.steps NotVersioned sts).m_cached_realms ≤ 1 := by
  induction sts with
  | nil => intro c h1 h2; exact ⟨h1, h2⟩
  | cons st rest ih =>
    intro c h1 h2
    obtain ⟨h3, h4⟩ := step_keeps_one_per_thread NotVersioned c st h1 h2
    exact ih _ h3 h4

/-- The condition of `prepare_handover`, spelled out. -/
theorem needs_handover_iff (m_did_update : Bool) (sg : SharedGroup)
    (callback : AsyncQueryCallback) (tv : Option Handover) :
    needs_handover m_did_update sg callback tv = true ↔
      (m_did_update = true ∨ callback.first_run = true ∨
        ∃ t, tv = some t ∧ t.version ≠ sg.version) := by
  cases tv with
  | none => simp [needs_handover]
  | some t => simp [needs_handover, or_assoc]

/-- The statements `v[i] = std::move(v.back()); v.pop_back();` shorten the vector by
one. -/
theorem swap_remove_length {α : Type} (v w : List α) (i : Nat)
    (h : swap_remove v i = some w) : w.length + 1 = v.length := by
  unfold swap_remove at h
  split at h
  · rename_i back x hback hx
    simp only [Option.some.injEq] at h
    subst h
    have := (List.getElem?_eq_some.1 hx).1
    simp only [List.length_dropLast, List.length_set]
    omega
  · exact absurd h (by simp)

/-- Every operation keeps the observer list and the capsule list of the same length. -/
theorem apply_keeps_alignment (q q1 : AsyncQuery) (op : Operation)
    (hlen : q.m_callbacks.length = q.m_tv_handover.length) (h : q.apply op = some q1) :
    q1.m_callbacks.length = q1.m_tv_handover.length := by
  cases op with
  | add_callback callback =>
    simp only [AsyncQuery.apply, Option.some.injEq] at h
    subst h
    unfold AsyncQuery.add_callback
    split
    · exact hlen
    · simp [hlen]
  | remove_callback callback =>
    simp only [AsyncQuery.apply, Option.map_eq_some'] at h
    obtain ⟨r, hr, rfl⟩ := h
    unfold AsyncQuery.remove_callback at hr
    split at hr
    · split at hr
      · rename_i cbs tvs hcbs htvs
        simp only [Option.some.injEq] at hr
        subst hr
        have h1 := swap_remove_length _ _ _ hcbs
        have h2 := swap_remove_length _ _ _ htvs
        simp only []
        omega
      · exact absurd hr (by simp)
    · split at hr
      · simp only [Option.some.injEq] at hr
        subst hr
        exact hlen
      · exact absurd hr (by simp)
  | prepare_update changed rows =>
    simp only [AsyncQuery.apply, AsyncQuery.prepare_update] at h
    split at h
    · exact absurd h (by simp)
    · split at h <;> simp only [Option.some.injEq] at h <;> subst h <;> exact hlen
  | prepare_handover =>
    simp only [AsyncQuery.apply, Option.map_eq_some'] at h
    obtain ⟨⟨q2, ev⟩, hr, rfl⟩ := h
    obtain ⟨sg, -, -, -, h4, -⟩ := prepare_handover_keeps q q2 ev hlen hr
    exact h4
  | get_results thread sg =>
    simp only [AsyncQuery.apply, Option.map_eq_some'] at h
    obtain ⟨⟨q2, ret⟩, hr, rfl⟩ := h
    exact (get_results_keeps q thread sg [] q2 ret hlen hr).2.2.1
  | set_error err =>
    simp only [AsyncQuery.apply, Option.some.injEq] at h
    subst h
    unfold AsyncQuery.set_error
    split <;> exact hlen
  | attach_to sg =>
    simp only [AsyncQuery.apply, AsyncQuery.attach_to] at h
    split at h
    · simp only [Option.some.injEq] at h
      subst h
      exact hlen
    · exact absurd h (by simp)
  | detatch =>
    simp only [AsyncQuery.apply, AsyncQuery.detatch] at h
    split at h
    · simp only [Option.some.injEq] at h
      subst h
      exact hlen
    · exact absurd h (by simp)
  | producer_version version =>
    simp only [AsyncQuery.apply] at h
    split at h
    · simp only [Option.some.injEq] at h
      subst h
      exact hlen
    · exact absurd h (by simp)

/-- Every sequence of operations keeps the observer list and the capsule list of the
same length. -/
theorem apply_all_keeps_alignment (ops : List Operation) :
    ∀ q q1 : AsyncQuery, q.m_callbacks.length = q.m_tv_handover.length →
      q.apply_all ops = some q1 → q1.m_callbacks.length = q1.m_tv_handover.length := by
  induction ops with
  | nil =>
    intro q q1 hlen h
    simp only [AsyncQuery.apply_all, Option.some.injEq] at h
    exact h ▸ hlen
  | cons op rest ih =>
    intro q q1 hlen h
    rw [AsyncQuery.apply_all] at h
    split at h
    · rename_i q2 hop
      exact ih q2 q1 (apply_keeps_alignment q q2 op hlen hop) h
    · exact absurd h (by simp)

/-- The operations that are defined under index alignment: `add_callback` and
`set_error` always, `get_results` always, `prepare_handover` on an attached query,
`remove_callback` of a registered observer, and of any observer while an error is
set. -/
theorem apply_defined (q : AsyncQuery)
    (hlen : q.m_callbacks.length = q.m_tv_handover.length) :
    (∀ callback, ∃ q1, q.apply (Operation.add_callback callback) = some q1) ∧
    (∀ err, ∃ q1, q.apply (Operation.set_error err) = some q1) ∧
    (∀ thread sg, ∃ q1, q.apply (Operation.get_results thread sg) = some q1) ∧
    (q.m_sg ≠ none → ∃ q1, q.apply Operation.prepare_handover = some q1) ∧
    (∀ callback ∈ q.m_callbacks, ∃ q1, q.apply (Operation.remove_callback callback.id) = some q1) ∧
    (q.m_error ≠ none → ∀ callback, ∃ q1, q.apply (Operation.remove_callback callback) = some q1) := by
  refine ⟨fun _ => ⟨_, rfl⟩, fun _ => ⟨_, rfl⟩, fun thread sg => ?_, fun hsg => ?_,
    fun callback hmem => ?_, fun herr callback => ?_⟩
  · obtain ⟨r, hr⟩ := get_results_total q thread sg [] hlen
    exact ⟨r.1, by simp [AsyncQuery.apply, hr]⟩
  · cases hs : q.m_sg with
    | none => exact absurd hs hsg
    | some sg =>
      obtain ⟨q1, ev, h1, -⟩ := prepare_handover_spec q sg hs hlen
      exact ⟨q1, by simp [AsyncQuery.apply, h1]⟩
  · have key : ∀ i, find_callback callback.id q.m_callbacks 0 = some i →
        ∃ q1, q.apply (Operation.remove_callback callback.id) = some q1 := by
      intro i hfind
      obtain ⟨j, cb, hij, hcb, -⟩ := find_callback_some callback.id q.m_callbacks 0 i hfind
      have hi : i < q.m_callbacks.length := by
        have := (List.getElem?_eq_some.1 hcb).1
        omega
      obtain ⟨cbs, hcbs, -⟩ := swap_remove_spec q.m_callbacks i hi
      obtain ⟨tvs, htvs, -⟩ := swap_remove_spec q.m_tv_handover i (by omega)
      exact ⟨{ q with m_callbacks := cbs, m_tv_handover := tvs },
        by simp [AsyncQuery.apply, AsyncQuery.remove_callback, hfind, hcbs, htvs]⟩
    obtain ⟨i, hfind⟩ := find_callback_of_mem callback.id q.m_callbacks 0 ⟨callback, hmem, rfl⟩
    exact key i hfind
  · cases hfind : find_callback callback q.m_callbacks 0 with
    | none =>
      cases he : q.m_error with
      | none => exact absurd he herr
      | some e => exact ⟨q, by simp [AsyncQuery.apply, AsyncQuery.remove_callback, hfind, he]⟩
    | some i =>
      obtain ⟨j, cb, hij, hcb, -⟩ := find_callback_some callback q.m_callbacks 0 i hfind
      have hi : i < q.m_callbacks.length := by
        have := (List.getElem?_eq_some.1 hcb).1
        omega
      obtain ⟨cbs, hcbs, -⟩ := swap_remove_spec q.m_callbacks i hi
      obtain ⟨tvs, htvs, -⟩ := swap_remove_spec q.m_tv_handover i (by omega)
      exact ⟨{ q with m_callbacks := cbs, m_tv_handover := tvs },
        by simp [AsyncQuery.apply, AsyncQuery.remove_callback, hfind, hcbs, htvs]⟩

/-- After `map[path] = weak` the entry of `path` is `weak`. -/
theorem lookup_map_assign_self (path : String) (weak : Nat) :
    ∀ l : List (String × Nat), (map_assign path weak l).lookup path = some weak := by
  intro l
  induction l with
  | nil => simp [map_assign, List.lookup]
  | cons e rest ih =>
    obtain ⟨k, v⟩ := e
    rw [map_assign]
    split
    · simp [List.lookup]
    · rename_i hk
      have hne : (path == k) = false := by
        simp only [beq_eq_false_iff_ne, ne_eq]
        exact fun e => hk e.symm
      simp only [List.lookup, hne]
      exact ih

/-- After `map[path] = weak` the entries of the other paths are what they were. -/
theorem lookup_map_assign_ne (path other : String) (weak : Nat) (h : other ≠ path) :
    ∀ l : List (String × Nat), (map_assign path weak l).lookup other = l.lookup other := by
  have hop : (other == path) = false := by simpa using h
  intro l
  induction l with
  | nil => simp [map_assign, List.lookup, hop]
  | cons e rest ih =>
    obtain ⟨k, v⟩ := e
    rw [map_assign]
    split
    · rename_i hk
      subst hk
      simp [List.lookup, hop]
    · simp only [List.lookup]
      rw [ih]

/-- The entries after `map[path] = weak` are the new one and entries that were there. -/
theorem mem_map_assign (path : String) (weak : Nat) :
    ∀ (l : List (String × Nat)) (e : String × Nat), e ∈ map_assign path weak l →
      e = (path, weak) ∨ e ∈ l := by
  intro l
  induction l with
  | nil => intro e h; simpa [map_assign] using h
  | cons x rest ih =>
    obtain ⟨k, v⟩ := x
    intro e h
    rw [map_assign] at h
    split at h
    · rcases List.mem_cons.1 h with h | h
      · exact Or.inl h
      · exact Or.inr (List.mem_cons_of_mem _ h)
    · rcases List.mem_cons.1 h with h | h
      · exact Or.inr (h ▸ List.mem_cons_self _ _)
      · rcases ih e h with h | h
        · exact Or.inl h
        · exact Or.inr (List.mem_cons_of_mem _ h)

/-- A key that is found belongs to an entry of the list. -/
theorem mem_of_lookup {β : Type} (k : String) (v : β) :
    ∀ l : List (String × β), l.lookup k = some v → (k, v) ∈ l := by
  intro l
  induction l with
  | nil => intro h; simp [List.lookup] at h
  | cons e rest ih =>
    obtain ⟨k1, v1⟩ := e
    intro h
    simp only [List.lookup] at h
    split at h
    · rename_i hk
      simp only [beq_iff_eq] at hk
      simp only [Option.some.injEq] at h
      subst hk h
      exact List.mem_cons_self _ _
    · exact List.mem_cons_of_mem _ (ih h)

/-- Looking an object up after one more object was allocated. -/
theorem lookup_append_one {β : Type} (a n : Nat) (x : β) :
    ∀ l : List (Nat × β), (l ++ [(n, x)]).lookup a =
      match l.lookup a with
      | some v => some v
      | none => if a = n then some x else none := by
  intro l
  induction l with
  | nil =>
    by_cases h : a = n
    · simp [List.lookup, h]
    · have : (a == n) = false := by simpa using h
      simp [List.lookup, h, this]
  | cons e rest ih =>
    obtain ⟨k, v⟩ := e
    simp only [List.cons_append, List.lookup]
    split
    · rfl
    · exact ih

/-- Looking an object up after the object `c` was destroyed. -/
theorem lookup_filter_ne {β : Type} (a c : Nat) :
    ∀ l : List (Nat × β), (l.filter fun e => e.1 != c).lookup a =
      if a = c then none else l.lookup a := by
  intro l
  induction l with
  | nil => simp [List.lookup]
  | cons e rest ih =>
    obtain ⟨k, v⟩ := e
    rw [List.filter_cons]
    by_cases hk : k = c
    · subst hk
      simp only [bne_self_eq_false, Bool.false_eq_true, if_false, ih]
      split
      · rfl
      · rename_i hak
        have : (a == k) = false := by simpa using hak
        simp [List.lookup, this]
    · have hkc : (k != c) = true := by simpa using hk
      simp only [hkc, if_true, List.lookup]
      by_cases hak : a = k
      · subst hak
        simp [hk]
      · have : (a == k) = false := by simpa using hak
        simp only [this, ih]

/-- A member function called on one object does not change which objects are alive. -/
theorem lookup_map_isSome {β : Type} (a c : Nat) (f : β → β) :
    ∀ l : List (Nat × β),
      ((l.map fun e => if e.1 = c then (e.1, f e.2) else e).lookup a).isSome =
        (l.lookup a).isSome := by
  intro l
  induction l with
  | nil => rfl
  | cons e rest ih =>
    obtain ⟨k, v⟩ := e
    rw [List.map_cons]
    by_cases hk : k = c
    · have hmap : (if (k, v).1 = c then ((k, v).1, f (k, v).2) else (k, v)) = (k, f v) :=
        if_pos hk
      rw [hmap, List.lookup, List.lookup]
      cases a == k
      · exact ih
      · rfl
    · have hmap : (if (k, v).1 = c then ((k, v).1, f (k, v).2) else (k, v)) = (k, v) :=
        if_neg hk
      rw [hmap, List.lookup, List.lookup]
      cases a == k
      · exact ih
      · rfl

/-- An entry that is found and kept by a filter is found after the filter. -/
theorem lookup_filter_keep (k : String) (v : Nat) (f : String × Nat → Bool) :
    ∀ l : List (String × Nat), l.lookup k = some v → f (k, v) = true →
      (l.filter f).lookup k = some v := by
  intro l
  induction l with
  | nil => intro h; simp [List.lookup] at h
  | cons e rest ih =>
    obtain ⟨k1, v1⟩ := e
    intro h hf
    simp only [List.lookup] at h
    split at h
    · rename_i hk
      simp only [beq_iff_eq] at hk
      simp only [Option.some.injEq] at h
      subst hk h
      rw [List.filter_cons, hf]
      simp [List.lookup]
    · rename_i hk
      rw [List.filter_cons]
      split
      · simp only [List.lookup, hk]
        exact ih h hf
      · exact ih h hf

/-- Function `get_coordinator` written with `get_existing_coordinator`, which makes the
same lookup. -/
theorem get_coordinator_unfold (w : Registry) (path : String) :
    w.get_coordinator path =
      match w.get_existing_coordinator path with
      | some c => ({ w with handed_out := w.handed_out ++ [(path, c)] }, c)
      | none =>
        ({ s_coordinators_per_path := map_assign path w.next w.s_coordinators_per_path
           coordinators := w.coordinators ++ [(w.next, RealmCoordinator.new)]
           next := w.next + 1
           handed_out := w.handed_out ++ [(path, w.next)] }, w.next) :=
  rfl

/-- Function `get_existing_coordinator` returns an instance exactly when the map has an
entry for the path and the object of that entry is alive. -/
theorem get_existing_coordinator_some (w : Registry) (path : String) (a : Nat) :
    w.get_existing_coordinator path = some a ↔
      w.s_coordinators_per_path.lookup path = some a ∧ (w.lock a).isSome = true := by
  unfold Registry.get_existing_coordinator
  cases hl : w.s_coordinators_per_path.lookup path with
  | none => simp
  | some weak =>
    simp only [Option.some.injEq]
    constructor
    · intro h
      split at h
      · rename_i hlive
        simp only [Option.some.injEq] at h
        subst h
        exact ⟨rfl, hlive⟩
      · exact absurd h (by simp)
    · rintro ⟨rfl, hlive⟩
      rw [if_pos hlive]

/-- After `get_coordinator(path)` the instance returned is the live entry of `path`. -/
theorem get_coordinator_held (w : Registry) (path : String) :
    (w.get_coordinator path).1.get_existing_coordinator path =
      some (w.get_coordinator path).2 := by
  rw [get_coordinator_unfold]
  cases hex : w.get_existing_coordinator path with
  | some c =>
    simp only []
    rw [get_existing_coordinator_some] at hex ⊢
    exact hex
  | none =>
    simp only []
    rw [get_existing_coordinator_some]
    refine ⟨lookup_map_assign_self _ _ _, ?_⟩
    simp only [Registry.lock]
    rw [lookup_append_one]
    split
    · rfl
    · simp

/-- A live entry of the map stays the live entry of its path through every step but
`clear_cache` and the release of its object. -/
theorem step_keeps_held (NotVersioned : Nat) (w : Registry) (path : String) (a : Nat)
    (st : RegistryStep) (h : w.get_existing_coordinator path = some a)
    (h1 : st ≠ RegistryStep.clear_cache) (h2 : st ≠ RegistryStep.release a) :
    (w.step NotVersioned st).get_existing_coordinator path = some a := by
  obtain ⟨hl, hlive⟩ := (get_existing_coordinator_some w path a).1 h
  cases st with
  | get_coordinator other =>
    simp only [Registry.step]
    rw [get_coordinator_unfold]
    cases hex : w.get_existing_coordinator other with
    | some c =>
      simp only []
      rw [get_existing_coordinator_some]
      exact ⟨hl, hlive⟩
    | none =>
      simp only []
      have hne : path ≠ other := by
        rintro rfl
        rw [h] at hex
        exact absurd hex (by simp)
      rw [get_existing_coordinator_some]
      refine ⟨by rw [lookup_map_assign_ne other path _ hne]; exact hl, ?_⟩
      simp only [Registry.lock] at hlive ⊢
      rw [lookup_append_one]
      cases hla : List.lookup a w.coordinators with
      | none => rw [hla] at hlive; exact absurd hlive (by simp)
      | some v => rfl
  | get_existing_coordinator other => exact h
  | clear_cache => exact absurd rfl h1
  | release c =>
    have hca : a ≠ c := fun e => h2 (e ▸ rfl)
    simp only [Registry.step, Registry.release]
    rw [get_existing_coordinator_some]
    refine ⟨hl, ?_⟩
    simp only [Registry.lock] at hlive ⊢
    rw [lookup_filter_ne, if_neg hca]
    exact hlive
  | destructor =>
    simp only [Registry.step, Registry.destructor]
    rw [get_existing_coordinator_some]
    exact ⟨lookup_filter_keep path a _ _ hl hlive, hlive⟩
  | on_coordinator c cst =>
    simp only [Registry.step, Registry.on_coordinator]
    rw [get_existing_coordinator_some]
    refine ⟨hl, ?_⟩
    simp only [Registry.lock] at hlive ⊢
    have hm := lookup_map_isSome a c (fun x => RealmCoordinator.step NotVersioned x cst)
      w.coordinators
    simp only [] at hm
    rw [hm]
    exact hlive

/-- See `step_keeps_held`, for a sequence of steps. -/
theorem steps_keep_held (NotVersioned : Nat) (path : String) (a : Nat)
    (sts : List RegistryStep) :
    ∀ w : Registry, w.get_existing_coordinator path = some a →
      (∀ st ∈ sts, st ≠ RegistryStep.clear_cache ∧ st ≠ RegistryStep.release a) →
      (w.steps NotVersioned sts).get_existing_coordinator path = some a := by
  induction sts with
  | nil => intro w h _; exact h
  | cons st rest ih =>
    intro w h hsts
    have hst := hsts st (List.mem_cons_self _ _)
    exact ih _ (step_keeps_held NotVersioned w path a st h hst.1 hst.2)
      (fun s hs => hsts s (List.mem_cons_of_mem _ hs))

/-- Every step keeps the registry `consistent`. -/
theorem step_keeps_consistent (NotVersioned : Nat) (w : Registry) (st : RegistryStep)
    (h : w.consistent) : (w.step NotVersioned st).consistent := by
  obtain ⟨hs, hc, hh, hreg⟩ := h
  cases st with
  | get_coordinator path =>
    simp only [Registry.step]
    rw [get_coordinator_unfold]
    cases hex : w.get_existing_coordinator path with
    | some c =>
      obtain ⟨hl, hlive⟩ := (get_existing_coordinator_some w path c).1 hex
      refine ⟨hs, hc, fun e he => ?_, fun e he hel => ?_⟩
      · rcases List.mem_append.1 he with he | he
        · exact hh e he
        · simp only [List.mem_singleton] at he
          subst he
          exact hs _ (mem_of_lookup _ _ _ hl)
      · rcases List.mem_append.1 he with he | he
        · exact hreg e he hel
        · simp only [List.mem_singleton] at he
          subst he
          exact hl
    | none =>
      refine ⟨fun e he => ?_, fun e he => ?_, fun e he => ?_, fun e he hel => ?_⟩
      · rcases mem_map_assign _ _ _ e he with he | he
        · subst he
          exact Nat.lt_succ_self _
        · exact Nat.lt_succ_of_lt (hs e he)
      · rcases List.mem_append.1 he with he | he
        · exact Nat.lt_succ_of_lt (hc e he)
        · simp only [List.mem_singleton] at he
          subst he
          exact Nat.lt_succ_self _
      · rcases List.mem_append.1 he with he | he
        · exact Nat.lt_succ_of_lt (hh e he)
        · simp only [List.mem_singleton] at he
          subst he
          exact Nat.lt_succ_self _
      · rcases List.mem_append.1 he with he | he
        · have hlt := hh e he
          simp only [Registry.lock] at hel
          rw [lookup_append_one] at hel
          have hlive : (w.lock e.2).isSome = true := by
            simp only [Registry.lock]
            cases hl : List.lookup e.2 w.coordinators with
            | some v => rfl
            | none =>
              rw [hl] at hel
              simp only [] at hel
              rw [if_neg (by omega)] at hel
              exact absurd hel (by simp)
          have hlook := hreg e he hlive
          have hne : e.1 ≠ path := by
            intro hp
            have : w.get_existing_coordinator path = some e.2 :=
              (get_existing_coordinator_some w path e.2).2 ⟨hp ▸ hlook, hlive⟩
            rw [hex] at this
            exact absurd this (by simp)
          simp only []
          rw [lookup_map_assign_ne path e.1 _ hne]
          exact hlook
        · simp only [List.mem_singleton] at he
          subst he
          exact lookup_map_assign_self _ _ _
  | get_existing_coordinator path => exact ⟨hs, hc, hh, hreg⟩
  | clear_cache =>
    simp only [Registry.step, Registry.clear_cache]
    exact ⟨by simp, hc, by simp, by simp⟩
  | release c =>
    simp only [Registry.step, Registry.release]
    refine ⟨hs, fun e he => hc e (List.mem_of_mem_filter he), hh, fun e he hel => ?_⟩
    apply hreg e he
    simp only [Registry.lock] at hel ⊢
    rw [lookup_filter_ne] at hel
    split at hel
    · exact absurd hel (by simp)
    · exact hel
  | destructor =>
    simp only [Registry.step, Registry.destructor]
    refine ⟨fun e he => hs e (List.mem_of_mem_filter he), hc, hh, fun e he hel => ?_⟩
    exact lookup_filter_keep e.1 e.2 _ _ (hreg e he hel) hel
  | on_coordinator c cst =>
    simp only [Registry.step, Registry.on_coordinator]
    refine ⟨hs, fun e he => ?_, hh, fun e he hel => ?_⟩
    · obtain ⟨x, hx, rfl⟩ := List.mem_map.1 he
      have := hc x hx
      split <;> exact this
    · apply hreg e he
      simp only [Registry.lock] at hel ⊢
      have hm := lookup_map_isSome e.2 c (fun x => RealmCoordinator.step NotVersioned x cst)
        w.coordinators
      simp only [] at hm
      rw [hm] at hel
      exact hel

/-- Every state reached from the empty registry is `consistent`. -/
theorem steps_consistent (NotVersioned : Nat) (sts : List RegistryStep) :
    ∀ w : Registry, w.consistent → (w.steps NotVersioned sts).consistent := by
  induction sts with
  | nil => intro w h; exact h
  | cons st rest ih =>
    intro w h
    exact ih _ (step_keeps_consistent NotVersioned w st h)

/-- The empty registry is `consistent`. -/
theorem empty_consistent : Registry.empty.consistent :=
  ⟨by simp [Registry.empty], by simp [Registry.empty], by simp [Registry.empty],
    by simp [Registry.empty]⟩

/-- An object allocated at `next` or later is not alive in a `consistent` registry. -/
theorem lock_next_none (w : Registry) (h : w.consistent) : w.lock w.next = none := by
  cases hl : w.lock w.next with
  | none => rfl
  | some c =>
    have hmem : (w.next, c) ∈ w.coordinators := by
      simp only [Registry.lock] at hl
      clear h
      generalize w.next = n at hl
      generalize w.coordinators = l at hl
      induction l with
      | nil => simp [List.lookup] at hl
      | cons e rest ih =>
        obtain ⟨k, v⟩ := e
        simp only [List.lookup] at hl
        split at hl
        · rename_i hk
          simp only [beq_iff_eq] at hk
          simp only [Option.some.injEq] at hl
          subst hk hl
          exact List.mem_cons_self _ _
        · exact List.mem_cons_of_mem _ (ih hl)
    have := h.2.1 _ hmem
    simp at this

/-- Function `get_existing_coordinator` returns nothing exactly when the map has no
entry for the path or the object of the entry is not alive. -/
theorem get_existing_coordinator_none (w : Registry) (path : String) :
    w.get_existing_coordinator path = none ↔
      (w.s_coordinators_per_path.lookup path = none ∨
        ∃ weak, w.s_coordinators_per_path.lookup path = some weak ∧ w.lock weak = none) := by
  unfold Registry.get_existing_coordinator
  cases hl : w.s_coordinators_per_path.lookup path with
  | none => simp
  | some weak =>
    cases hk : w.lock weak with
    | none => simp
    | some c => simp

/-- Function `prepare_handover` changes no observer but for its `first_run` flag: the
observer in a position after the call has the identity of the one that was there. -/
theorem prepare_handover_ids (q : AsyncQuery) (sg : SharedGroup) (q1 : AsyncQuery)
    (ev : List Event) (hsg : q.m_sg = some sg)
    (hlen : q.m_callbacks.length = q.m_tv_handover.length)
    (h : q.prepare_handover = some (q1, ev)) :
    ∀ (j : Nat) (cb1 : AsyncQueryCallback), q1.m_callbacks[j]? = some cb1 →
      ∃ cb, q.m_callbacks[j]? = some cb ∧ cb1.id = cb.id := by
  obtain ⟨q2, ev2, h1, -, h3, -, h5⟩ := prepare_handover_spec q sg hsg hlen
  rw [h1] at h
  simp only [Option.some.injEq, Prod.mk.injEq] at h
  obtain ⟨rfl, -⟩ := h
  intro j cb1 hj
  have hj1 : j < q.m_callbacks.length := by
    rw [← h3]; exact (List.getElem?_eq_some.1 hj).1
  have hj2 : j < q.m_tv_handover.length := by omega
  obtain ⟨hcb, -⟩ := h5 j _ _ (List.getElem?_eq_getElem hj1) (List.getElem?_eq_getElem hj2)
  rw [hcb] at hj
  simp only [Option.some.injEq] at hj
  refine ⟨_, List.getElem?_eq_getElem hj1, ?_⟩
  rw [← hj]
  split <;> rfl

/-- C1. Stale-capsule rejection: with no error set, if the observer in slot `i` is bound
to the calling thread and its pending capsule is older than the transaction of the
destination, `get_results` returns, every action it appends is a result action for a
slot other than `i` (and, the observers being pairwise distinct, none of them calls that
observer when it is run while the observer list is the same), the capsule in slot `i` is
left as it was and so is the observer list. -/
theorem C1_stale_capsule_rejected (q : AsyncQuery) (thread : Nat) (sg : SharedGroup)
    (ret : List Action) (i : Nat) (callback : AsyncQueryCallback) (tv : Handover)
    (herr : q.m_error = none)
    (hlen : q.m_callbacks.length = q.m_tv_handover.length)
    (hcb : q.m_callbacks[i]? = some callback)
    (_hthread : callback.is_for_current_thread thread = true)
    (htv : q.m_tv_handover[i]? = some (some tv))
    (hstale : tv.version < sg.version) :
    ∃ q1 new, q.get_results thread sg ret = some (q1, ret ++ new) ∧
      (∀ a ∈ new, ∃ slot r version, a = Action.deliver slot r version ∧ slot ≠ i) ∧
      ((q.m_callbacks.map AsyncQueryCallback.id).Nodup →
        ∀ a ∈ new, ∀ (q2 : AsyncQuery) (sg2 : SharedGroup) (evs : List Event),
          q2.m_callbacks = q.m_callbacks → a.run q2 sg2 = some evs →
          ∀ e ∈ evs, e.observer ≠ callback.id) ∧
      q1.m_tv_handover[i]? = some (some tv) ∧ q1.m_callbacks = q.m_callbacks := by
  obtain ⟨q1, new, b, h1, h2, h3, h4, h5⟩ :=
    get_results_loop_stale thread sg i callback tv hstale q.m_callbacks.length 0 q ret herr
      (by omega) hlen hcb htv
  have hget : q.get_results thread sg ret = some (q1, ret ++ new) := by
    unfold AsyncQuery.get_results
    rw [h1]
    cases b
    · simp only [h5]
    · rfl
  refine ⟨q1, new, hget, h2, ?_, h3, h4⟩
  intro hnodup a ha q2 sg2 evs hq2 hrun e he
  obtain ⟨slot, r, version, rfl, hslot⟩ := h2 a ha
  obtain ⟨cb2, hcb2, rfl, -⟩ := run_deliver_events q2 sg2 slot r version evs hrun e he
  intro hid
  rw [hq2] at hcb2
  exact hslot (nodup_ids_index hnodup hcb2 hcb hid)

/-- C1, at an instance: two observers of thread 1, the second with a capsule of version 2
while the destination is at version 3. -/
theorem C1_stale_capsule_rejected_witness :
    ∃ q1 new,
      ({ AsyncQuery.new ⟨0, 0⟩ with
          m_callbacks := [⟨1, 1, false⟩, ⟨2, 1, false⟩]
          m_tv_handover := [some ⟨5, 0⟩, some ⟨2, 0⟩] } : AsyncQuery).get_results 1 ⟨3⟩ [] =
        some (q1, [] ++ new) ∧
      (∀ a ∈ new, ∃ slot r version, a = Action.deliver slot r version ∧ slot ≠ 1) ∧
      ((([⟨1, 1, false⟩, ⟨2, 1, false⟩] : List AsyncQueryCallback).map
          AsyncQueryCallback.id).Nodup →
        ∀ a ∈ new, ∀ (q2 : AsyncQuery) (sg2 : SharedGroup) (evs : List Event),
          q2.m_callbacks = [⟨1, 1, false⟩, ⟨2, 1, false⟩] → a.run q2 sg2 = some evs →
          ∀ e ∈ evs, e.observer ≠ 2) ∧
      q1.m_tv_handover[1]? = some (some ⟨2, 0⟩) ∧
      q1.m_callbacks = [⟨1, 1, false⟩, ⟨2, 1, false⟩] :=
  C1_stale_capsule_rejected _ 1 ⟨3⟩ [] 1 ⟨2, 1, false⟩ ⟨2, 0⟩ rfl rfl rfl rfl rfl (by decide)

/-- C2. Swap-remove alignment: when the registered observers are pairwise distinct and
the observer and capsule lists have equal length, `remove_callback` of a registered
observer `B` returns, the two lists still have equal length, one element less, and an
(observer, pending capsule) pair is in the query afterwards exactly when it was there
before and is not the pair of `B`. -/
theorem C2_swap_remove_alignment (q : AsyncQuery) (B : AsyncQueryCallback)
    (hnodup : (q.m_callbacks.map AsyncQueryCallback.id).Nodup)
    (hlen : q.m_callbacks.length = q.m_tv_handover.length)
    (hB : B ∈ q.m_callbacks) :
    ∃ q1 b, q.remove_callback B.id = some (q1, b) ∧
      q1.m_callbacks.length = q1.m_tv_handover.length ∧
      q1.m_callbacks.length + 1 = q.m_callbacks.length ∧
      ∀ p : AsyncQueryCallback × Option Handover,
        p ∈ q1.m_callbacks.zip q1.m_tv_handover ↔
          (p ∈ q.m_callbacks.zip q.m_tv_handover ∧ p.1.id ≠ B.id) := by
  obtain ⟨i, hfind⟩ := find_callback_of_mem B.id q.m_callbacks 0 ⟨B, hB, rfl⟩
  obtain ⟨j, cb, hij, hcb, hid⟩ := find_callback_some B.id q.m_callbacks 0 i hfind
  have hij : i = j := by omega
  subst hij
  have hi : i < q.m_callbacks.length := (List.getElem?_eq_some.1 hcb).1
  obtain ⟨cbs, hcbs, hcl, hcg⟩ := swap_remove_spec q.m_callbacks i hi
  obtain ⟨tvs, htvs, htl, htg⟩ := swap_remove_spec q.m_tv_handover i (by omega)
  refine ⟨{ q with m_callbacks := cbs, m_tv_handover := tvs }, !cbs.isEmpty, ?_, ?_, ?_, ?_⟩
  · simp [AsyncQuery.remove_callback, hfind, hcbs, htvs]
  · simp only [hcl, htl, hlen]
  · simp only [hcl]; omega
  · intro p
    simp only [List.mem_iff_getElem?, List.getElem?_zip_eq_some, hcg, htg, ← hlen]
    constructor
    · rintro ⟨k, h1, h2⟩
      by_cases hk : k < q.m_callbacks.length - 1
      · rw [if_pos hk] at h1 h2
        by_cases hki : k = i
        · rw [if_pos hki] at h1 h2
          refine ⟨⟨_, h1, h2⟩, fun e => ?_⟩
          have := nodup_ids_index hnodup h1 hcb (e.trans hid.symm)
          omega
        · rw [if_neg hki] at h1 h2
          refine ⟨⟨_, h1, h2⟩, fun e => ?_⟩
          exact hki (nodup_ids_index hnodup h1 hcb (e.trans hid.symm))
      · rw [if_neg hk] at h1
        exact absurd h1 (by simp)
    · rintro ⟨⟨k, h1, h2⟩, hne⟩
      have hk : k < q.m_callbacks.length := (List.getElem?_eq_some.1 h1).1
      have hki : k ≠ i := by
        rintro rfl
        rw [hcb] at h1
        simp only [Option.some.injEq] at h1
        exact hne (h1 ▸ hid)
      by_cases hlast : k = q.m_callbacks.length - 1
      · refine ⟨i, ?_, ?_⟩
        · rw [if_pos (by omega), if_pos rfl, ← hlast]; exact h1
        · rw [if_pos (by omega), if_pos rfl, ← hlast]; exact h2
      · refine ⟨k, ?_, ?_⟩
        · rw [if_pos (by omega), if_neg hki]; exact h1
        · rw [if_pos (by omega), if_neg hki]; exact h2

/-- C2, at the instance of the specification: `[A:a, B:b, C:c]` minus `B`. -/
theorem C2_swap_remove_alignment_witness :
    ∃ q1 b,
      ({ AsyncQuery.new ⟨0, 0⟩ with
          m_callbacks := [⟨1, 1, false⟩, ⟨2, 1, false⟩, ⟨3, 1, false⟩]
          m_tv_handover := [some ⟨4, 10⟩, some ⟨5, 20⟩, some ⟨6, 30⟩] } :
        AsyncQuery).remove_callback (⟨2, 1, false⟩ : AsyncQueryCallback).id = some (q1, b) ∧
      q1.m_callbacks.length = q1.m_tv_handover.length ∧
      q1.m_callbacks.length + 1 =
        ([⟨1, 1, false⟩, ⟨2, 1, false⟩, ⟨3, 1, false⟩] : List AsyncQueryCallback).length ∧
      ∀ p : AsyncQueryCallback × Option Handover,
        p ∈ q1.m_callbacks.zip q1.m_tv_handover ↔
          (p ∈ ([⟨1, 1, false⟩, ⟨2, 1, false⟩, ⟨3, 1, false⟩] : List AsyncQueryCallback).zip
              [some ⟨4, 10⟩, some ⟨5, 20⟩, some ⟨6, 30⟩] ∧
            p.1.id ≠ (⟨2, 1, false⟩ : AsyncQueryCallback).id) :=
  C2_swap_remove_alignment _ ⟨2, 1, false⟩ (by decide) rfl (by decide)

/-- C3, the code at the failing input: observers 1 (thread 1) and 2 (thread 2) are
registered when `set_error(7)` is called. Both are signalled. The `get_results` call
from thread 1 makes the error action of observer 1 and then clears the whole observer
list, observer 2 included; the `get_results` call from thread 2 finds no observer and
makes no action: observer 2 never gets the error. -/
theorem C3_error_lost_on_other_thread :
    ({ AsyncQuery.new ⟨0, 0⟩ with
        m_callbacks := [⟨1, 1, false⟩, ⟨2, 2, false⟩]
        m_tv_handover := [none, none] } : AsyncQuery).set_error (some 7) =
      ({ AsyncQuery.new ⟨0, 0⟩ with
          m_callbacks := [⟨1, 1, false⟩, ⟨2, 2, false⟩]
          m_tv_handover := [none, none]
          m_error := some 7 }, [Event.update_ready 1, Event.update_ready 2]) ∧
    ({ AsyncQuery.new ⟨0, 0⟩ with
        m_callbacks := [⟨1, 1, false⟩, ⟨2, 2, false⟩]
        m_tv_handover := [none, none]
        m_error := some 7 } : AsyncQuery).get_results 1 ⟨0⟩ [] =
      some ({ AsyncQuery.new ⟨0, 0⟩ with m_error := some 7 },
        [Action.error ⟨1, 1, false⟩ 7]) ∧
    ({ AsyncQuery.new ⟨0, 0⟩ with m_error := some 7 } : AsyncQuery).get_results 2 ⟨0⟩ [] =
      some ({ AsyncQuery.new ⟨0, 0⟩ with m_error := some 7 }, []) := by
  decide

/-- C4, the code at the failing input: on a query with the error 7 stored,
`add_callback` of observer 2 (thread 2) signals the observer and leaves the query as it
was, the observer is not registered; the next `get_results` call from thread 2 makes no
action, so the error is not delivered to the observer. -/
theorem C4_late_observer_gets_no_error :
    ({ AsyncQuery.new ⟨0, 0⟩ with m_error := some 7 } : AsyncQuery).add_callback ⟨2, 2, true⟩ =
      ({ AsyncQuery.new ⟨0, 0⟩ with m_error := some 7 }, [Event.update_ready 2]) ∧
    ({ AsyncQuery.new ⟨0, 0⟩ with m_error := some 7 } : AsyncQuery).get_results 2 ⟨0⟩ [] =
      some ({ AsyncQuery.new ⟨0, 0⟩ with m_error := some 7 }, []) := by
  decide

/-- C5. Once an error is set, `get_results` returns, appends exactly one action per
observer bound to the calling thread (in the order of the observer list, whatever the
pending capsules are), each of these actions when run does nothing but call the error
path of its observer with the stored error, and after the call the observer list and
the list of pending capsules are empty. -/
theorem C5_error_flushes_query (q : AsyncQuery) (thread : Nat) (sg : SharedGroup)
    (ret : List Action) (e : Nat) (herr : q.m_error = some e) :
    ∃ q1, q.get_results thread sg ret =
        some (q1, ret ++ (q.m_callbacks.filter fun cb => cb.is_for_current_thread thread).map
          fun cb => Action.error cb e) ∧
      (∀ (cb : AsyncQueryCallback) (q2 : AsyncQuery) (sg2 : SharedGroup),
        (Action.error cb e).run q2 sg2 = some [Event.error cb.id e]) ∧
      q1.m_callbacks = [] ∧ q1.m_tv_handover = [] ∧ q1.m_error = some e := by
  refine ⟨{ q with m_callbacks := [], m_tv_handover := [] }, ?_, fun _ _ _ => rfl, rfl, rfl,
    herr⟩
  unfold AsyncQuery.get_results
  rw [get_results_loop_error thread sg e q.m_callbacks.length 0 q ret herr (by omega)]
  simp [herr]

/-- C5, at an instance: observers of threads 1, 2, 1, the first with a fresh capsule. -/
theorem C5_error_flushes_query_witness :
    ∃ q1,
      ({ AsyncQuery.new ⟨0, 0⟩ with
          m_callbacks := [⟨1, 1, false⟩, ⟨2, 2, false⟩, ⟨3, 1, true⟩]
          m_tv_handover := [some ⟨5, 0⟩, none, none]
          m_error := some 7 } : AsyncQuery).get_results 1 ⟨3⟩ [] =
        some (q1, [] ++ (([⟨1, 1, false⟩, ⟨2, 2, false⟩, ⟨3, 1, true⟩] :
          List AsyncQueryCallback).filter fun cb => cb.is_for_current_thread 1).map
          fun cb => Action.error cb 7) ∧
      (∀ (cb : AsyncQueryCallback) (q2 : AsyncQuery) (sg2 : SharedGroup),
        (Action.error cb 7).run q2 sg2 = some [Event.error cb.id 7]) ∧
      q1.m_callbacks = [] ∧ q1.m_tv_handover = [] ∧ q1.m_error = some 7 :=
  C5_error_flushes_query _ 1 ⟨3⟩ [] 7 rfl

/-- C6, as amended. First-run guarantee. Take an attached query without error, with any
observers and pending capsules, whose update phase found nothing new
(`m_did_update = false`), and add an observer `B` with `first_run = true`; `B` sits in
position `q.m_callbacks.length`. Then `prepare_handover` returns and leaves in the slot
of `B` a capsule stamped with the version of the producer, and `first_run = false` on
`B`; a `get_results` from the thread of `B` with a destination that is not ahead of the
producer returns and appends exactly one result action for `B`, made from that capsule.
Run at any later moment, that action calls `deliver` on `B` once, with that result, if
the destination's transaction is at the version it had when the action was collected,
and calls nothing if it is at another version. A further `prepare_handover` (same
producer version, still nothing new) returns, and a further `get_results` from the
thread of `B`, whatever the destination, returns and appends no result action for `B`.
When `B` is not one of the observers that were there before, none of the other actions
of the two collections makes a call on `B` when it is run. So `B` gets its first result
once if its action is run before the destination moves, and not at all otherwise. -/
theorem C6_first_run_guarantee (q : AsyncQuery) (sg dest dest2 : SharedGroup)
    (B : AsyncQueryCallback) (ret ret2 : List Action)
    (hsg : q.m_sg = some sg) (herr : q.m_error = none)
    (hlen : q.m_callbacks.length = q.m_tv_handover.length)
    (hupd : q.m_did_update = false) (hB : B.first_run = true)
    (hdest : dest.version ≤ sg.version) :
    ∃ q2 ev2 q3 new q4 ev4 q5 new2,
      (q.add_callback B).1.prepare_handover = some (q2, ev2) ∧
      q2.m_callbacks[q.m_callbacks.length]? = some { B with first_run := false } ∧
      q2.m_tv_handover[q.m_callbacks.length]? = some (some (sg.export_for_handover q.m_tv)) ∧
      (sg.export_for_handover q.m_tv).version = sg.version ∧
      q2.get_results B.thread dest ret = some (q3, ret ++ new) ∧
      new.filter (Action.is_result_for q.m_callbacks.length) =
        [Action.deliver q.m_callbacks.length
          (dest.import_from_handover (sg.export_for_handover q.m_tv)) dest.version] ∧
      (∀ now : SharedGroup,
        (Action.deliver q.m_callbacks.length
          (dest.import_from_handover (sg.export_for_handover q.m_tv)) dest.version).run q3 now =
          some (if now.version = dest.version then
            [Event.deliver B.id (dest.import_from_handover (sg.export_for_handover q.m_tv))]
          else [])) ∧
      q3.m_sg = some sg ∧ q3.m_did_update = false ∧
      q3.prepare_handover = some (q4, ev4) ∧
      q4.get_results B.thread dest2 ret2 = some (q5, ret2 ++ new2) ∧
      new2.filter (Action.is_result_for q.m_callbacks.length) = [] ∧
      ((∀ cb ∈ q.m_callbacks, cb.id ≠ B.id) →
        (∀ a ∈ new, Action.is_result_for q.m_callbacks.length a = false →
          ∀ (now : SharedGroup) (evs : List Event), a.run q3 now = some evs →
            ∀ e ∈ evs, e.observer ≠ B.id) ∧
        (∀ a ∈ new2, ∀ (now : SharedGroup) (evs : List Event), a.run q5 now = some evs →
            ∀ e ∈ evs, e.observer ≠ B.id)) := by
  -- the query after `add_callback`
  have hadd : (q.add_callback B).1 =
      { q with m_callbacks := q.m_callbacks ++ [B], m_tv_handover := q.m_tv_handover ++ [none] } := by
    simp only [AsyncQuery.add_callback, herr]
  rw [hadd]
  obtain ⟨q2, ev2, hp2, hq2, hc2, ht2, hidx2⟩ :=
    prepare_handover_spec
      { q with m_callbacks := q.m_callbacks ++ [B], m_tv_handover := q.m_tv_handover ++ [none] }
      sg hsg (by simp [hlen])
  have hcbB : (q.m_callbacks ++ [B])[q.m_callbacks.length]? = some B := by simp
  have htvB : (q.m_tv_handover ++ [none])[q.m_callbacks.length]? = some none := by
    rw [hlen]; simp
  obtain ⟨hB2, hT2⟩ := hidx2 _ _ _ hcbB htvB
  have hneedB : needs_handover q.m_did_update sg B none = true := by
    simp [needs_handover, hB]
  simp only [hneedB, if_true] at hB2 hT2
  have hstamp := prepare_handover_stamped
    { q with m_callbacks := q.m_callbacks ++ [B], m_tv_handover := q.m_tv_handover ++ [none] }
    sg q2 ev2 hsg (by simp [hlen]) hp2
  have hids2 := prepare_handover_ids
    { q with m_callbacks := q.m_callbacks ++ [B], m_tv_handover := q.m_tv_handover ++ [none] }
    sg q2 ev2 hsg (by simp [hlen]) hp2
  have hlen2 : q2.m_callbacks.length = q2.m_tv_handover.length := by
    rw [hc2, ht2]; simp [hlen]
  have hsize2 : q2.m_callbacks.length = q.m_callbacks.length + 1 := by
    rw [hc2]; simp
  have herr2 : q2.m_error = none := by rw [hq2]; exact herr
  -- the first `get_results`
  obtain ⟨q3, new, hloop, hfresh⟩ :=
    get_results_loop_fresh B.thread dest q2.m_callbacks.length 0 q2 ret herr2 (by omega) hlen2
      (fun j t hj => by rw [hstamp j t hj]; omega)
  obtain ⟨hq3, hl3, hs3⟩ := get_results_loop_frame B.thread dest _ _ _ _ _ _ _ hloop
  have herr3 : q3.m_error = none := by rw [hq3]; exact herr2
  have hget : q2.get_results B.thread dest ret = some (q3, ret ++ new) := by
    unfold AsyncQuery.get_results
    rw [hloop]
    simp only [herr3]
  obtain ⟨hT3, hone⟩ := hfresh _ _ _ (Nat.zero_le _) hB2
    (by simp [AsyncQueryCallback.is_for_current_thread]) hT2
  have hsg3 : q3.m_sg = some sg := by rw [hq3, hq2]; exact hsg
  have hupd3 : q3.m_did_update = false := by rw [hq3, hq2]; exact hupd
  have hcb3 : q3.m_callbacks = q2.m_callbacks := by rw [hq3]
  have hlen3 : q3.m_callbacks.length = q3.m_tv_handover.length := by
    rw [hcb3, hl3]; exact hlen2
  -- the second `prepare_handover`
  obtain ⟨q4, ev4, hp4, hq4, hc4, ht4, hidx4⟩ := prepare_handover_spec q3 sg hsg3 hlen3
  have hids4 := prepare_handover_ids q3 sg q4 ev4 hsg3 hlen3 hp4
  obtain ⟨-, hT4⟩ := hidx4 _ _ _ (hcb3 ▸ hB2) hT3
  have hneed4 : needs_handover q3.m_did_update sg { B with first_run := false } none = false := by
    simp [needs_handover, hupd3]
  simp only [hneed4, Bool.false_eq_true, if_false] at hT4
  have hlen4 : q4.m_callbacks.length = q4.m_tv_handover.length := by
    rw [hc4, ht4]; exact hlen3
  have herr4 : q4.m_error = none := by rw [hq4]; exact herr3
  -- the second `get_results`
  obtain ⟨⟨q5, ret5⟩, hget5⟩ := get_results_total q4 B.thread dest2 ret2 hlen4
  obtain ⟨new2, rfl, hact⟩ := get_results_actions q4 B.thread dest2 ret2 q5 ret5 hget5
  obtain ⟨hq5, -, -⟩ := get_results_frame q4 B.thread dest2 ret2 q5 _ herr4 hget5
  have hcb5 : q5.m_callbacks = q4.m_callbacks := by rw [hq5]
  obtain ⟨new1, hnew1, hact1⟩ := get_results_actions q2 B.thread dest ret q3 _ hget
  have hnew1 : new = new1 := List.append_cancel_left hnew1
  subst hnew1
  have hrun : ∀ now : SharedGroup,
      (Action.deliver q.m_callbacks.length
        (dest.import_from_handover (sg.export_for_handover q.m_tv)) dest.version).run q3 now =
        some (if now.version = dest.version then
          [Event.deliver B.id (dest.import_from_handover (sg.export_for_handover q.m_tv))]
        else []) := by
    intro now
    have hq3B : q3.m_callbacks[q.m_callbacks.length]? = some { B with first_run := false } :=
      hcb3 ▸ hB2
    by_cases hv : now.version = dest.version <;> simp [Action.run, hq3B, hv]
  refine ⟨q2, ev2, q3, new, q4, ev4, q5, new2, hp2, hB2, hT2, rfl, hget, hone, hrun, hsg3,
    hupd3, hp4, hget5, ?_, fun hother => ?_⟩
  · rw [List.filter_eq_nil_iff]
    intro a ha
    rcases hact a ha with ⟨cb, e, rfl, -⟩ | ⟨j, tv, rfl, hj, -⟩
    · simp [Action.is_result_for]
    · have hne : j ≠ q.m_callbacks.length := by
        rintro rfl
        rw [hT4] at hj
        simp at hj
      simp [Action.is_result_for, hne]
  · -- the observers before `B` keep their identities
    have hid2 : ∀ (j : Nat) (cb : AsyncQueryCallback), j ≠ q.m_callbacks.length →
        q2.m_callbacks[j]? = some cb → cb.id ≠ B.id := by
      intro j cb hne hj
      obtain ⟨cb0, h0, h1⟩ := hids2 j cb hj
      have hjlt : j < q.m_callbacks.length := by
        have := (List.getElem?_eq_some.1 hj).1
        omega
      simp only [List.getElem?_append_left hjlt] at h0
      rw [h1]
      exact hother cb0 (List.getElem?_mem h0)
    have hid4 : ∀ (j : Nat) (cb : AsyncQueryCallback), j ≠ q.m_callbacks.length →
        q4.m_callbacks[j]? = some cb → cb.id ≠ B.id := by
      intro j cb hne hj
      obtain ⟨cb0, h0, h1⟩ := hids4 j cb hj
      rw [h1]
      exact hid2 j cb0 hne (hcb3 ▸ h0)
    refine ⟨fun a ha hres now evs hrun e he => ?_, fun a ha now evs hrun e he => ?_⟩
    · rcases hact1 a ha with ⟨cb, err, -, h2, -⟩ | ⟨j, tv, rfl, -, -⟩
      · rw [herr2] at h2
        exact absurd h2 (by simp)
      · have hne : j ≠ q.m_callbacks.length := by
          rintro rfl
          simp [Action.is_result_for] at hres
        obtain ⟨cb, h1, rfl, -⟩ := run_deliver_events _ _ _ _ _ _ hrun e he
        exact hid2 j cb hne (hcb3 ▸ h1)
    · rcases hact a ha with ⟨cb, err, -, h2, -⟩ | ⟨j, tv, rfl, hj, -⟩
      · rw [herr4] at h2
        exact absurd h2 (by simp)
      · have hne : j ≠ q.m_callbacks.length := by
          rintro rfl
          rw [hT4] at hj
          simp at hj
        obtain ⟨cb, h1, rfl, -⟩ := run_deliver_events _ _ _ _ _ _ hrun e he
        exact hid4 j cb hne (hcb5 ▸ h1)

/-- C6 as amended, at an instance: observer 1 of thread 1 has been served at version 5,
observer 2 of thread 1 joins, producer and destination are at version 5; the action
collected for observer 2 delivers the result to observer 2 when it is run with the
destination still at version 5, and calls nothing when the destination is at version
6. -/
theorem C6_first_run_guarantee_witness :
    ∃ q2 ev2 q3 new q4 ev4 q5 new2,
      (({ AsyncQuery.new ⟨0, 0⟩ with
          m_callbacks := [⟨1, 1, false⟩], m_tv_handover := [none], m_version := 5
          m_sg := some ⟨5⟩ } : AsyncQuery).add_callback ⟨2, 1, true⟩).1.prepare_handover =
        some (q2, ev2) ∧
      q2.get_results 1 ⟨5⟩ [] = some (q3, [] ++ new) ∧
      new.filter (Action.is_result_for 1) = [Action.deliver 1 ⟨5, 0⟩ 5] ∧
      (Action.deliver 1 ⟨5, 0⟩ 5).run q3 ⟨5⟩ = some [Event.deliver 2 ⟨5, 0⟩] ∧
      (Action.deliver 1 ⟨5, 0⟩ 5).run q3 ⟨6⟩ = some [] ∧
      q3.prepare_handover = some (q4, ev4) ∧
      q4.get_results 1 ⟨6⟩ [] = some (q5, [] ++ new2) ∧
      new2.filter (Action.is_result_for 1) = [] := by
  obtain ⟨q2, ev2, q3, new, q4, ev4, q5, new2, h1, -, -, -, h5, h6, h7, -, -, h10, h11, h12, -⟩ :=
    C6_first_run_guarantee
      { AsyncQuery.new ⟨0, 0⟩ with
          m_callbacks := [⟨1, 1, false⟩], m_tv_handover := [none], m_version := 5
          m_sg := some ⟨5⟩ }
      ⟨5⟩ ⟨5⟩ ⟨6⟩ ⟨2, 1, true⟩ [] [] rfl rfl rfl rfl rfl (by decide)
  exact ⟨q2, ev2, q3, new, q4, ev4, q5, new2, h1, h5, h6, h7 ⟨5⟩, h7 ⟨6⟩, h10, h11, h12⟩

/-- C6 as stated fails: observer 1 of thread 1 has been served at version 5 and
observer 2 of thread 1 joins with `first_run = true`; producer and destination are at
version 5 and nothing new has arrived. `prepare_handover` exports a capsule for observer
2 and `get_results` collects one result action for it, in position 0 of `ret`. The
destination's transaction then moves to version 6 before the action is run: the action
finds another version than the one it has captured and calls nothing. The capsule has
been consumed and `first_run` is `false`, so the further `prepare_handover` exports
nothing and the further `get_results` collects no action: no call has been made on
observer 2. -/
theorem C6_destination_moved_counterexample :
    (({ AsyncQuery.new ⟨0, 0⟩ with
          m_callbacks := [⟨1, 1, false⟩], m_tv_handover := [none], m_version := 5
          m_sg := some ⟨5⟩ } : AsyncQuery).add_callback ⟨2, 1, true⟩).1 =
      { AsyncQuery.new ⟨0, 0⟩ with
          m_callbacks := [⟨1, 1, false⟩, ⟨2, 1, true⟩], m_tv_handover := [none, none]
          m_version := 5, m_sg := some ⟨5⟩ } ∧
    (({ query := { AsyncQuery.new ⟨0, 0⟩ with
                     m_callbacks := [⟨1, 1, false⟩, ⟨2, 1, true⟩]
                     m_tv_handover := [none, none], m_version := 5, m_sg := some ⟨5⟩ }
        dest := ⟨5⟩, ret := [], log := [] } : System).exec
      [Step.prepare_handover, Step.get_results 1, Step.dest_advance 6, Step.run 0,
       Step.prepare_handover, Step.get_results 1]).map (fun s => (s.ret, s.log)) =
      some ([Action.deliver 1 ⟨5, 0⟩ 5], []) := by
  exact ⟨by decide, by decide⟩

/-- C7. No delivery of data older than what the consumer has observed: every result
action that `get_results` appends holds the version the destination had at collection
time, and whenever it is run later, in whatever state of the query and of the
destination, it calls `deliver` only if the destination is at that version then, with
the result it was made with, whose stamp is not less than the version of the
destination at that moment. -/
theorem C7_no_delivery_of_older_data (q : AsyncQuery) (thread : Nat) (sg : SharedGroup)
    (ret : List Action) (q1 : AsyncQuery) (ret1 : List Action)
    (h : q.get_results thread sg ret = some (q1, ret1)) :
    ∃ new, ret1 = ret ++ new ∧
      ∀ slot r version, Action.deliver slot r version ∈ new →
        version = sg.version ∧
        ∀ (q2 : AsyncQuery) (sg2 : SharedGroup) (evs : List Event),
          (Action.deliver slot r version).run q2 sg2 = some evs →
          ∀ o r2, Event.deliver o r2 ∈ evs →
            sg2.version = version ∧ r2 = r ∧ sg2.version ≤ r2.version := by
  obtain ⟨new, h1, h2⟩ := get_results_actions q thread sg ret q1 ret1 h
  refine ⟨new, h1, fun slot r version ha => ?_⟩
  rcases h2 _ ha with ⟨cb, e, e1, -⟩ | ⟨j, tv, e1, -, e3, -⟩
  · exact absurd e1 (by simp)
  · simp only [Action.deliver.injEq] at e1
    obtain ⟨rfl, rfl, rfl⟩ := e1
    refine ⟨rfl, fun q2 sg2 evs hrun o r2 he => ?_⟩
    obtain ⟨cb, -, e4, e5⟩ := run_deliver_events q2 sg2 _ _ _ evs hrun _ he
    simp only [Event.deliver.injEq] at e4
    obtain ⟨-, rfl⟩ := e4
    refine ⟨e5, rfl, ?_⟩
    rw [e5]
    simp only [SharedGroup.import_from_handover]
    omega

/-- C7, at an instance: one observer with a capsule of version 5, destination at 3. -/
theorem C7_no_delivery_of_older_data_witness :
    ∃ new, [Action.deliver 0 ⟨5, 0⟩ 3] = [] ++ new ∧
      ∀ slot r version, Action.deliver slot r version ∈ new →
        version = (⟨3⟩ : SharedGroup).version ∧
        ∀ (q2 : AsyncQuery) (sg2 : SharedGroup) (evs : List Event),
          (Action.deliver slot r version).run q2 sg2 = some evs →
          ∀ o r2, Event.deliver o r2 ∈ evs →
            sg2.version = version ∧ r2 = r ∧ sg2.version ≤ r2.version :=
  C7_no_delivery_of_older_data
    { AsyncQuery.new ⟨0, 0⟩ with m_callbacks := [⟨1, 1, false⟩], m_tv_handover := [some ⟨5, 0⟩] }
    1 ⟨3⟩ []
    { AsyncQuery.new ⟨0, 0⟩ with m_callbacks := [⟨1, 1, false⟩], m_tv_handover := [none] }
    [Action.deliver 0 ⟨5, 0⟩ 3] (by decide)

/-- C9. Function `set_error` is sticky and first-write-wins: on a query without error,
`set_error(e1)` stores `e1`, changes nothing else and calls `update_ready` once on each
registered observer, in the order of the list; a following `set_error(e2)` changes
nothing and calls no observer; and no member function changes an error that is stored:
whenever it returns, `m_error` is what it was. -/
theorem C9_set_error_sticky (q : AsyncQuery) (e1 e2 : Nat) (h : q.m_error = none) :
    q.set_error (some e1) =
      ({ q with m_error := some e1 },
        q.m_callbacks.map fun cb => Event.update_ready cb.id) ∧
    (q.set_error (some e1)).1.set_error (some e2) = ((q.set_error (some e1)).1, []) ∧
    ∀ (p : AsyncQuery) (e : Nat), p.m_error = some e →
      (∀ cb, (p.add_callback cb).1.m_error = some e) ∧
      (∀ id r, p.remove_callback id = some r → r.1.m_error = some e) ∧
      (∀ thread sg ret r, p.get_results thread sg ret = some r → r.1.m_error = some e) ∧
      (∀ changed rows r, p.prepare_update changed rows = some r → r.m_error = some e) ∧
      (∀ r, p.prepare_handover = some r → r.1.m_error = some e) ∧
      (∀ err, (p.set_error err).1.m_error = some e) ∧
      (∀ sg r, p.attach_to sg = some r → r.m_error = some e) ∧
      (∀ r, p.detatch = some r → r.m_error = some e) := by
  refine ⟨by simp only [AsyncQuery.set_error, h], by simp only [AsyncQuery.set_error, h], ?_⟩
  intro p e hp
  refine ⟨fun cb => ?_, fun id r hr => ?_, fun thread sg ret r hr => ?_,
    fun changed rows r hr => ?_, fun r hr => ?_, fun err => ?_, fun sg r hr => ?_,
    fun r hr => ?_⟩
  · simp only [AsyncQuery.add_callback, hp]
  · rw [remove_callback_error p id r hr]; exact hp
  · rw [get_results_error p thread sg ret r hr]; exact hp
  · unfold AsyncQuery.prepare_update at hr
    split at hr
    · exact absurd hr (by simp)
    · split at hr <;> simp only [Option.some.injEq] at hr <;> subst hr <;> exact hp
  · rw [prepare_handover_error p r hr]; exact hp
  · simp only [AsyncQuery.set_error, hp]
  · unfold AsyncQuery.attach_to at hr
    split at hr
    · simp only [Option.some.injEq] at hr
      subst hr
      exact hp
    · exact absurd hr (by simp)
  · unfold AsyncQuery.detatch at hr
    split at hr
    · simp only [Option.some.injEq] at hr
      subst hr
      exact hp
    · exact absurd hr (by simp)

/-- C9, at an instance: a query with observers 1 and 2, errors 7 and 8. -/
theorem C9_set_error_sticky_witness :
    ({ AsyncQuery.new ⟨0, 0⟩ with
        m_callbacks := [⟨1, 1, false⟩, ⟨2, 2, false⟩]
        m_tv_handover := [none, none] } : AsyncQuery).set_error (some 7) =
      ({ ({ AsyncQuery.new ⟨0, 0⟩ with
            m_callbacks := [⟨1, 1, false⟩, ⟨2, 2, false⟩]
            m_tv_handover := [none, none] } : AsyncQuery) with m_error := some 7 },
        ([⟨1, 1, false⟩, ⟨2, 2, false⟩] : List AsyncQueryCallback).map
          fun cb => Event.update_ready cb.id) ∧
    ((({ AsyncQuery.new ⟨0, 0⟩ with
        m_callbacks := [⟨1, 1, false⟩, ⟨2, 2, false⟩]
        m_tv_handover := [none, none] } : AsyncQuery).set_error (some 7)).1.set_error
        (some 8)) =
      ((({ AsyncQuery.new ⟨0, 0⟩ with
        m_callbacks := [⟨1, 1, false⟩, ⟨2, 2, false⟩]
        m_tv_handover := [none, none] } : AsyncQuery).set_error (some 7)).1, []) ∧
    ∀ (p : AsyncQuery) (e : Nat), p.m_error = some e →
      (∀ cb, (p.add_callback cb).1.m_error = some e) ∧
      (∀ id r, p.remove_callback id = some r → r.1.m_error = some e) ∧
      (∀ thread sg ret r, p.get_results thread sg ret = some r → r.1.m_error = some e) ∧
      (∀ changed rows r, p.prepare_update changed rows = some r → r.m_error = some e) ∧
      (∀ r, p.prepare_handover = some r → r.1.m_error = some e) ∧
      (∀ err, (p.set_error err).1.m_error = some e) ∧
      (∀ sg r, p.attach_to sg = some r → r.m_error = some e) ∧
      (∀ r, p.detatch = some r → r.m_error = some e) :=
  C9_set_error_sticky _ 7 8 rfl

/-- C10. Read-only mismatch is rejected atomically: on a new coordinator let the first
`get_realm` be one with `read_only = false` (it returns a handle); then, after any
sequence of further `get_realm`, `unregister_realm` and handle releases, a `get_realm`
with `read_only = true`, whatever its other fields, throws the
`MismatchedConfigException` for different read permissions and leaves the coordinator,
with its authoritative configuration, its notifier and its cached handles, as it was. -/
theorem C10_read_only_mismatch_rejected (NotVersioned : Nat) (config0 config : Config)
    (thread0 handle0 thread_id handle : Nat) (sts : List CoordinatorStep)
    (h0 : config0.read_only = false) (h1 : config.read_only = true) :
    (RealmCoordinator.new.get_realm NotVersioned config0 thread0 handle0).2 =
      Except.ok { id := handle0, thread_id := thread0, config := config0 } ∧
    (((RealmCoordinator.new.get_realm NotVersioned config0 thread0 handle0).1.steps
        NotVersioned sts).get_realm NotVersioned config thread_id handle) =
      (((RealmCoordinator.new.get_realm NotVersioned config0 thread0 handle0).1.steps
        NotVersioned sts),
        Except.error "Realm at path already opened with different read permissions.") := by
  have hfirst : (RealmCoordinator.new.get_realm NotVersioned config0 thread0 handle0).2 =
      Except.ok { id := handle0, thread_id := thread0, config := config0 } ∧
      (RealmCoordinator.new.get_realm NotVersioned config0 thread0 handle0).1.m_notifier.isSome
        = true ∧
      (RealmCoordinator.new.get_realm NotVersioned config0 thread0 handle0).1.m_config
        = config0 := by
    simp only [RealmCoordinator.get_realm, RealmCoordinator.new, h0]
    cases config0.cache <;> simp [find_cached_realm]
  obtain ⟨hres, hnot, hcfg⟩ := hfirst
  refine ⟨hres, ?_⟩
  obtain ⟨h2, h3⟩ := steps_keep_notifier NotVersioned sts _ hnot
  generalize ((RealmCoordinator.new.get_realm NotVersioned config0 thread0 handle0).1.steps
    NotVersioned sts) = c at h2 h3
  have hn : c.m_notifier.isNone = false := by
    cases hc : c.m_notifier with
    | none => rw [hc] at h2; exact absurd h2 (by simp)
    | some _ => rfl
  have hro : c.m_config.read_only = false := by rw [h3, hcfg]; exact h0
  simp [RealmCoordinator.get_realm, hn, hro, h1]

/-- C10, at an instance: opened writable by thread 1, a second handle for thread 2,
then a read-only open from thread 3. -/
theorem C10_read_only_mismatch_rejected_witness :
    (RealmCoordinator.new.get_realm 0 ⟨"p", false, false, [], 1, true, none⟩ 1 100).2 =
      Except.ok { id := 100, thread_id := 1, config := ⟨"p", false, false, [], 1, true, none⟩ } ∧
    (((RealmCoordinator.new.get_realm 0 ⟨"p", false, false, [], 1, true, none⟩ 1 100).1.steps
        0 [CoordinatorStep.get_realm ⟨"p", false, false, [], 1, true, none⟩ 2 101]).get_realm 0
          ⟨"p", true, false, [], 1, true, none⟩ 3 102) =
      (((RealmCoordinator.new.get_realm 0 ⟨"p", false, false, [], 1, true, none⟩ 1 100).1.steps
        0 [CoordinatorStep.get_realm ⟨"p", false, false, [], 1, true, none⟩ 2 101]),
        Except.error "Realm at path already opened with different read permissions.") :=
  C10_read_only_mismatch_rejected 0 ⟨"p", false, false, [], 1, true, none⟩
    ⟨"p", true, false, [], 1, true, none⟩ 1 100 3 102
    [CoordinatorStep.get_realm ⟨"p", false, false, [], 1, true, none⟩ 2 101] rfl rfl

/-- C11. Same-thread cached reuse. On a new coordinator `get_realm` with `cache = true`
returns a new handle. On any coordinator, when `get_realm` with `cache = true` has
returned a handle `r1` (read-only or not) and the same call is made again from the same
thread, it returns the same handle `r1` and leaves the coordinator, and so the cached
handles, as they were; the same call from another thread returns a handle as well, one
that belongs to that other thread while `r1` belongs to the first, so a different one. -/
theorem C11_same_thread_cached_reuse (NotVersioned : Nat) (c : RealmCoordinator)
    (config : Config) (thread_id handle handle2 thread2 handle3 : Nat) (r1 : Realm)
    (hcache : config.cache = true)
    (hfirst : (c.get_realm NotVersioned config thread_id handle).2 = Except.ok r1)
    (hthread : thread2 ≠ thread_id) :
    (RealmCoordinator.new.get_realm NotVersioned config thread_id handle).2 =
      Except.ok { id := handle, thread_id := thread_id, config := config } ∧
    (c.get_realm NotVersioned config thread_id handle).1.get_realm NotVersioned config
        thread_id handle2 =
      ((c.get_realm NotVersioned config thread_id handle).1, Except.ok r1) ∧
    ∃ r2, ((c.get_realm NotVersioned config thread_id handle).1.get_realm NotVersioned config
        thread2 handle3).2 = Except.ok r2 ∧
      r2.thread_id = thread2 ∧ r1.thread_id = thread_id ∧ r2 ≠ r1 := by
  obtain ⟨hagain, hval⟩ := get_realm_again c NotVersioned config thread_id handle r1 hcache hfirst
  have hr1 := get_realm_thread c NotVersioned config thread_id handle r1 hfirst
  refine ⟨?_, hagain handle2, ?_⟩
  · rw [get_realm_unfold, validate_first _ _ _ rfl rfl]
    simp [hcache, RealmCoordinator.new, find_cached_realm]
  · have hex : ∃ r2, ((c.get_realm NotVersioned config thread_id handle).1.get_realm
        NotVersioned config thread2 handle3).2 = Except.ok r2 := by
      rw [get_realm_unfold
        (c.get_realm NotVersioned config thread_id handle).1 NotVersioned config thread2 handle3,
        hval]
      simp only []
      split
      · exact ⟨_, rfl⟩
      · exact ⟨_, rfl⟩
    obtain ⟨r2, hr2⟩ := hex
    have ht2 := get_realm_thread _ NotVersioned config thread2 handle3 r2 hr2
    refine ⟨r2, hr2, ht2, hr1, fun he => hthread ?_⟩
    rw [← ht2, he, hr1]

/-- C11, at an instance: a writable, cached configuration opened on a new coordinator by
thread 1, again by thread 1 and then by thread 2. -/
theorem C11_same_thread_cached_reuse_witness :
    (RealmCoordinator.new.get_realm 0 ⟨"p", false, false, [], 1, true, none⟩ 1 100).2 =
      Except.ok { id := 100, thread_id := 1, config := ⟨"p", false, false, [], 1, true, none⟩ } ∧
    (RealmCoordinator.new.get_realm 0 ⟨"p", false, false, [], 1, true, none⟩ 1 100).1.get_realm 0
        ⟨"p", false, false, [], 1, true, none⟩ 1 101 =
      ((RealmCoordinator.new.get_realm 0 ⟨"p", false, false, [], 1, true, none⟩ 1 100).1,
        Except.ok ⟨100, 1, ⟨"p", false, false, [], 1, true, none⟩⟩) ∧
    ∃ r2, ((RealmCoordinator.new.get_realm 0 ⟨"p", false, false, [], 1, true, none⟩ 1
        100).1.get_realm 0 ⟨"p", false, false, [], 1, true, none⟩ 2 102).2 = Except.ok r2 ∧
      r2.thread_id = 2 ∧
      (⟨100, 1, ⟨"p", false, false, [], 1, true, none⟩⟩ : Realm).thread_id = 1 ∧
      r2 ≠ ⟨100, 1, ⟨"p", false, false, [], 1, true, none⟩⟩ :=
  C11_same_thread_cached_reuse 0 RealmCoordinator.new ⟨"p", false, false, [], 1, true, none⟩
    1 100 101 2 102 _ rfl rfl (by decide)

/-- C12, as amended. Field-by-field validation of later openers: when the coordinator
has a notifier or a cached handle, so that `get_realm` takes its validation branch,
`get_realm` throws the exception for the read permissions when the read-only flags
differ; else the one for the in-memory setting when the in-memory flags differ; else the
one for the encryption key when the keys differ; else the one for the schema version
when the schema versions differ and that of the opener is not
`ObjectStore::NotVersioned`; each time the coordinator is left as it was. Else, the
first three fields agreeing and the schema version agreeing or being `NotVersioned` in
the opener, it does not throw and returns a handle. -/
theorem C12_validation_of_later_openers (NotVersioned : Nat) (c : RealmCoordinator)
    (config : Config) (thread_id handle : Nat)
    (hbranch : c.m_notifier.isSome = true ∨ c.m_cached_realms ≠ []) :
    (c.m_config.read_only ≠ config.read_only →
      c.get_realm NotVersioned config thread_id handle =
        (c, Except.error "Realm at path already opened with different read permissions.")) ∧
    (c.m_config.read_only = config.read_only → c.m_config.in_memory ≠ config.in_memory →
      c.get_realm NotVersioned config thread_id handle =
        (c, Except.error "Realm at path already opened with different inMemory settings.")) ∧
    (c.m_config.read_only = config.read_only → c.m_config.in_memory = config.in_memory →
      c.m_config.encryption_key ≠ config.encryption_key →
      c.get_realm NotVersioned config thread_id handle =
        (c, Except.error "Realm at path already opened with a different encryption key.")) ∧
    (c.m_config.read_only = config.read_only → c.m_config.in_memory = config.in_memory →
      c.m_config.encryption_key = config.encryption_key →
      c.m_config.schema_version ≠ config.schema_version →
      config.schema_version ≠ NotVersioned →
      c.get_realm NotVersioned config thread_id handle =
        (c, Except.error "Realm at path already opened with different schema version.")) ∧
    (c.m_config.read_only = config.read_only → c.m_config.in_memory = config.in_memory →
      c.m_config.encryption_key = config.encryption_key →
      (c.m_config.schema_version = config.schema_version ∨
        config.schema_version = NotVersioned) →
      ∃ r, (c.get_realm NotVersioned config thread_id handle).2 = Except.ok r) := by
  obtain ⟨herr, hok⟩ := get_realm_of_validate c NotVersioned config thread_id handle
  have hv := validate_later c NotVersioned config hbranch
  refine ⟨fun h1 => herr _ ?_, fun h1 h2 => herr _ ?_, fun h1 h2 h3 => herr _ ?_,
    fun h1 h2 h3 h4 h5 => herr _ ?_, fun h1 h2 h3 h4 => hok c ?_⟩
  · rw [hv, if_pos h1]
  · rw [hv, if_neg (not_not.2 h1), if_pos h2]
  · rw [hv, if_neg (not_not.2 h1), if_neg (not_not.2 h2), if_pos h3]
  · rw [hv, if_neg (not_not.2 h1), if_neg (not_not.2 h2), if_neg (not_not.2 h3),
      if_pos ⟨h4, h5⟩]
  · rw [hv, if_neg (not_not.2 h1), if_neg (not_not.2 h2), if_neg (not_not.2 h3), if_neg]
    rintro ⟨h5, h6⟩
    rcases h4 with h4 | h4
    · exact h5 h4
    · exact h6 h4

/-- C12 as amended, at an instance: a coordinator opened writable with schema version 1
(it has its notifier); an opener with schema version 2 is refused. -/
theorem C12_validation_of_later_openers_witness :
    (RealmCoordinator.new.get_realm 18446744073709551615
        ⟨"p", false, false, [], 1, true, none⟩ 1 99).1.get_realm 18446744073709551615
        ⟨"p", false, false, [], 2, true, none⟩ 1 100 =
      ((RealmCoordinator.new.get_realm 18446744073709551615
        ⟨"p", false, false, [], 1, true, none⟩ 1 99).1,
        Except.error "Realm at path already opened with different schema version.") :=
  (C12_validation_of_later_openers 18446744073709551615
    (RealmCoordinator.new.get_realm 18446744073709551615
      ⟨"p", false, false, [], 1, true, none⟩ 1 99).1
    ⟨"p", false, false, [], 2, true, none⟩ 1 100 (Or.inl rfl)).2.2.2.1 rfl rfl rfl
    (by decide) (by decide)

/-- C12 as stated fails: the coordinator has been opened writable with schema version 1
(it has its notifier and a cached handle); an opener from another thread that agrees
with it but for its schema version, which is `ObjectStore::NotVersioned` (the largest
64-bit number), differs in the schema version and is not refused: `get_realm` returns a
handle. -/
theorem C12_not_versioned_counterexample :
    (⟨"p", false, false, [], 18446744073709551615, true, none⟩ : Config).schema_version ≠
      (RealmCoordinator.new.get_realm 18446744073709551615
        ⟨"p", false, false, [], 1, true, none⟩ 1 99).1.m_config.schema_version ∧
    ((RealmCoordinator.new.get_realm 18446744073709551615
        ⟨"p", false, false, [], 1, true, none⟩ 1 99).1.get_realm 18446744073709551615
        ⟨"p", false, false, [], 18446744073709551615, true, none⟩ 2 100).2 =
      Except.ok ⟨100, 2, ⟨"p", false, false, [], 18446744073709551615, true, none⟩⟩ := by
  exact ⟨by decide, rfl⟩

/-- C13, as amended. The configuration of the first opener stays authoritative when the
first opener is not read-only: on a new coordinator the first `get_realm`, with a
configuration `config0` that has `read_only = false` (cached or not), returns a handle
and creates the notifier; after any sequence of further `get_realm` calls, of
`unregister_realm` calls and of handle releases the coordinator still has its notifier,
so that the next `get_realm` takes the validation branch, and `m_config` is still
`config0`; and an opener that differs from `config0` in the in-memory flag or in the
encryption key is refused with a `MismatchedConfigException`, the coordinator being left
as it was. -/
theorem C13_first_opener_is_authoritative (NotVersioned : Nat) (config0 config : Config)
    (thread0 handle0 thread_id handle : Nat) (sts : List CoordinatorStep)
    (hfirst : config0.read_only = false) :
    (RealmCoordinator.new.get_realm NotVersioned config0 thread0 handle0).2 =
      Except.ok { id := handle0, thread_id := thread0, config := config0 } ∧
    ((RealmCoordinator.new.get_realm NotVersioned config0 thread0 handle0).1.steps
        NotVersioned sts).m_notifier.isSome = true ∧
    ((RealmCoordinator.new.get_realm NotVersioned config0 thread0 handle0).1.steps
        NotVersioned sts).m_config = config0 ∧
    ((config.in_memory ≠ config0.in_memory ∨ config.encryption_key ≠ config0.encryption_key) →
      ∃ msg, ((RealmCoordinator.new.get_realm NotVersioned config0 thread0 handle0).1.steps
          NotVersioned sts).get_realm NotVersioned config thread_id handle =
        (((RealmCoordinator.new.get_realm NotVersioned config0 thread0 handle0).1.steps
          NotVersioned sts), Except.error msg)) := by
  have hnew : (RealmCoordinator.new.get_realm NotVersioned config0 thread0 handle0).2 =
      Except.ok { id := handle0, thread_id := thread0, config := config0 } ∧
      (RealmCoordinator.new.get_realm NotVersioned config0 thread0 handle0).1.m_notifier.isSome
        = true ∧
      (RealmCoordinator.new.get_realm NotVersioned config0 thread0 handle0).1.m_config
        = config0 := by
    simp only [RealmCoordinator.get_realm, RealmCoordinator.new, hfirst]
    cases config0.cache <;> simp [find_cached_realm]
  obtain ⟨hres, hnot, hcfg⟩ := hnew
  obtain ⟨h1, h2⟩ := steps_keep_notifier NotVersioned sts _ hnot
  refine ⟨hres, h1, h2.trans hcfg, fun hdiff => ?_⟩
  generalize ((RealmCoordinator.new.get_realm NotVersioned config0 thread0 handle0).1.steps
    NotVersioned sts) = c at h1 h2
  have hc : c.m_config = config0 := h2.trans hcfg
  obtain ⟨herr, -⟩ := get_realm_of_validate c NotVersioned config thread_id handle
  have hv := validate_later c NotVersioned config (Or.inl h1)
  by_cases hro : c.m_config.read_only = config.read_only
  · by_cases him : c.m_config.in_memory = config.in_memory
    · have hkey : c.m_config.encryption_key ≠ config.encryption_key := by
        rcases hdiff with hd | hd
        · exact absurd (hc ▸ him).symm hd
        · rw [hc]; exact fun e => hd e.symm
      exact ⟨_, herr _ (by rw [hv, if_neg (not_not.2 hro), if_neg (not_not.2 him),
        if_pos hkey])⟩
    · exact ⟨_, herr _ (by rw [hv, if_neg (not_not.2 hro), if_pos him])⟩
  · exact ⟨_, herr _ (by rw [hv, if_pos hro])⟩

/-- C13 as amended, at an instance: a writable, cached first opener on thread 1 whose
handle is then released and unregistered, a second opener from thread 2, then an opener
with another encryption key, which is refused. -/
theorem C13_first_opener_is_authoritative_witness :
    ∃ msg, ((RealmCoordinator.new.get_realm 0 ⟨"p", false, false, [], 1, true, none⟩ 1 100).1.steps
        0 [CoordinatorStep.release 100, CoordinatorStep.unregister_realm 100,
           CoordinatorStep.get_realm ⟨"p", false, false, [], 1, false, none⟩ 2 101]).get_realm 0
          ⟨"p", false, false, [9], 1, true, none⟩ 3 102 =
      (((RealmCoordinator.new.get_realm 0 ⟨"p", false, false, [], 1, true, none⟩ 1 100).1.steps
        0 [CoordinatorStep.release 100, CoordinatorStep.unregister_realm 100,
           CoordinatorStep.get_realm ⟨"p", false, false, [], 1, false, none⟩ 2 101]),
        Except.error msg) :=
  (C13_first_opener_is_authoritative 0 ⟨"p", false, false, [], 1, true, none⟩
    ⟨"p", false, false, [9], 1, true, none⟩ 1 100 3 102
    [CoordinatorStep.release 100, CoordinatorStep.unregister_realm 100,
     CoordinatorStep.get_realm ⟨"p", false, false, [], 1, false, none⟩ 2 101] rfl).2.2.2
    (Or.inr (by decide))

/-- C13 as stated fails for a read-only first opener, cached or not. Without caching
the coordinator gets no notifier and no cached handle; a second opener, in-memory and
with another encryption key, takes the first branch again: it is not validated, gets a
handle, and its configuration replaces the stored one. With caching the first call
succeeds and leaves one cached handle and no notifier; once that handle has been
released and unregistered the cached list is empty, and a later `get_realm` that is
writable, in-memory and has another key takes the first branch: it gets a handle and
its configuration replaces the stored one. -/
theorem C13_read_only_first_opener_counterexample :
    (RealmCoordinator.new.get_realm 0 ⟨"p", true, false, [], 1, false, none⟩ 1 100 =
      ({ m_config := ⟨"p", true, false, [], 1, false, none⟩, m_notifier := none,
         m_cached_realms := [] },
        Except.ok ⟨100, 1, ⟨"p", true, false, [], 1, false, none⟩⟩) ∧
    ({ m_config := ⟨"p", true, false, [], 1, false, none⟩, m_notifier := none,
       m_cached_realms := [] } : RealmCoordinator).get_realm 0
        ⟨"p", true, true, [7], 1, false, none⟩ 2 101 =
      ({ m_config := ⟨"p", true, true, [7], 1, false, none⟩, m_notifier := none,
         m_cached_realms := [] },
        Except.ok ⟨101, 2, ⟨"p", true, true, [7], 1, false, none⟩⟩)) ∧
    ((RealmCoordinator.new.get_realm 0 ⟨"p", true, false, [], 1, true, none⟩ 1 100).2 =
      Except.ok ⟨100, 1, ⟨"p", true, false, [], 1, true, none⟩⟩ ∧
    (RealmCoordinator.new.get_realm 0 ⟨"p", true, false, [], 1, true, none⟩ 1 100).1.steps 0
        [CoordinatorStep.release 100, CoordinatorStep.unregister_realm 100] =
      { m_config := ⟨"p", true, false, [], 1, true, none⟩, m_notifier := none,
        m_cached_realms := [] } ∧
    ({ m_config := ⟨"p", true, false, [], 1, true, none⟩, m_notifier := none,
       m_cached_realms := [] } : RealmCoordinator).get_realm 0
        ⟨"p", false, true, [9], 1, true, none⟩ 2 101 =
      ({ m_config := ⟨"p", false, true, [9], 1, true, none⟩
         m_notifier := some ⟨[101]⟩
         m_cached_realms := [⟨⟨101, 2, ⟨"p", false, true, [9], 1, true, none⟩⟩, false⟩] },
        Except.ok ⟨101, 2, ⟨"p", false, true, [9], 1, true, none⟩⟩)) :=
  ⟨⟨rfl, rfl⟩, rfl, rfl, rfl⟩

/-- C14, the code at the failing input: the cached list holds two expired entries. At
`i = 0` the last entry is moved into position 0 and the list is shortened; `i` goes on
to 1, which is the end of the list, so the entry moved into position 0 is never looked
at: an expired entry is left in the list. The same happens with a live entry in
between. -/
theorem C14_expired_entry_survives :
    (({ RealmCoordinator.new with
        m_cached_realms := [⟨⟨100, 1, ⟨"p", false, false, [], 1, true, none⟩⟩, true⟩,
                            ⟨⟨101, 2, ⟨"p", false, false, [], 1, true, none⟩⟩, true⟩] } :
      RealmCoordinator).unregister_realm 100).m_cached_realms =
      [⟨⟨101, 2, ⟨"p", false, false, [], 1, true, none⟩⟩, true⟩] ∧
    (({ RealmCoordinator.new with
        m_cached_realms := [⟨⟨100, 1, ⟨"p", false, false, [], 1, true, none⟩⟩, true⟩,
                            ⟨⟨102, 3, ⟨"p", false, false, [], 1, true, none⟩⟩, false⟩,
                            ⟨⟨101, 2, ⟨"p", false, false, [], 1, true, none⟩⟩, true⟩] } :
      RealmCoordinator).unregister_realm 100).m_cached_realms =
      [⟨⟨101, 2, ⟨"p", false, false, [], 1, true, none⟩⟩, true⟩,
       ⟨⟨102, 3, ⟨"p", false, false, [], 1, true, none⟩⟩, false⟩] := by
  decide

/-- C15. Function `get_coordinator` returns the same instance while it is held. Let `w`
be a state of the registry reached from the empty one. After `get_coordinator(path)`
has returned an instance, and after any further steps among which there is no
`clear_cache` and no release of that instance, `get_coordinator(path)` returns that
instance again and changes neither the map nor the objects. And when the map of `w` has
no entry for `path`, or one whose object is not alive, `get_coordinator(path)` returns
an instance that was not alive before, a new coordinator, which the map then has for
`path`, while the entries of the other paths and the other objects are what they
were. -/
theorem C15_get_coordinator_same_instance (NotVersioned : Nat) (before later : List RegistryStep)
    (w : Registry) (path : String) (hw : w = Registry.empty.steps NotVersioned before)
    (hlater : ∀ st ∈ later, st ≠ RegistryStep.clear_cache ∧
      st ≠ RegistryStep.release (w.get_coordinator path).2) :
    ((((w.get_coordinator path).1.steps NotVersioned later).get_coordinator path).2 =
        (w.get_coordinator path).2 ∧
      (((w.get_coordinator path).1.steps NotVersioned later).get_coordinator
          path).1.s_coordinators_per_path =
        ((w.get_coordinator path).1.steps NotVersioned later).s_coordinators_per_path ∧
      (((w.get_coordinator path).1.steps NotVersioned later).get_coordinator
          path).1.coordinators =
        ((w.get_coordinator path).1.steps NotVersioned later).coordinators) ∧
    ((w.s_coordinators_per_path.lookup path = none ∨
        ∃ weak, w.s_coordinators_per_path.lookup path = some weak ∧ w.lock weak = none) →
      (w.get_coordinator path).2 = w.next ∧ w.lock w.next = none ∧
      (w.get_coordinator path).1.lock w.next = some RealmCoordinator.new ∧
      (w.get_coordinator path).1.s_coordinators_per_path.lookup path = some w.next ∧
      (∀ other, other ≠ path →
        (w.get_coordinator path).1.s_coordinators_per_path.lookup other =
          w.s_coordinators_per_path.lookup other) ∧
      (∀ a, a ≠ w.next → (w.get_coordinator path).1.lock a = w.lock a)) := by
  have hcons : w.consistent := hw ▸ steps_consistent NotVersioned before _ empty_consistent
  constructor
  · have hheld := steps_keep_held NotVersioned path _ later _ (get_coordinator_held w path)
      hlater
    rw [get_coordinator_unfold ((w.get_coordinator path).1.steps NotVersioned later), hheld]
    exact ⟨rfl, rfl, rfl⟩
  · intro hnone
    have hex := (get_existing_coordinator_none w path).2 hnone
    have hnext := lock_next_none w hcons
    rw [get_coordinator_unfold, hex]
    refine ⟨rfl, hnext, ?_, lookup_map_assign_self _ _ _,
      fun other ho => lookup_map_assign_ne path other _ ho _, fun a ha => ?_⟩
    · simp only [Registry.lock] at hnext ⊢
      rw [lookup_append_one, hnext]
      simp
    · simp only [Registry.lock]
      rw [lookup_append_one]
      cases List.lookup a w.coordinators with
      | none => simp [ha]
      | some v => rfl

/-- C15, at an instance: coordinators for "a" and "p" exist; `get_coordinator("p")` is
followed by a call for "z", the release of the coordinator of "a" and its destructor. -/
theorem C15_get_coordinator_same_instance_witness :
    ((((Registry.empty.steps 0 [RegistryStep.get_coordinator "a",
          RegistryStep.get_coordinator "p"]).get_coordinator "p").1.steps 0
        [RegistryStep.get_coordinator "z", RegistryStep.release 0,
         RegistryStep.destructor]).get_coordinator "p").2 =
      ((Registry.empty.steps 0 [RegistryStep.get_coordinator "a",
          RegistryStep.get_coordinator "p"]).get_coordinator "p").2 :=
  (C15_get_coordinator_same_instance 0
    [RegistryStep.get_coordinator "a", RegistryStep.get_coordinator "p"]
    [RegistryStep.get_coordinator "z", RegistryStep.release 0, RegistryStep.destructor]
    _ "p" rfl (by decide)).1.1

/-- C16, as amended. At most one live coordinator per path among those handed out since
the last `clear_cache`: in every state that the registry reaches from the empty one by
`get_coordinator`, `get_existing_coordinator`, `clear_cache`, releases of coordinators,
destructors and calls on coordinators, two instances that `get_coordinator` has returned
for the same path since the last `clear_cache` and that are both alive are the same
instance. -/
theorem C16_one_live_coordinator_per_path (NotVersioned : Nat) (sts : List RegistryStep)
    (path : String) (a b : Nat)
    (ha : (path, a) ∈ (Registry.empty.steps NotVersioned sts).handed_out)
    (hb : (path, b) ∈ (Registry.empty.steps NotVersioned sts).handed_out)
    (hlivea : ((Registry.empty.steps NotVersioned sts).lock a).isSome = true)
    (hliveb : ((Registry.empty.steps NotVersioned sts).lock b).isSome = true) :
    a = b := by
  obtain ⟨-, -, -, hreg⟩ := steps_consistent NotVersioned sts _ empty_consistent
  have h1 := hreg _ ha hlivea
  have h2 := hreg _ hb hliveb
  simp only [] at h1 h2
  rw [h1] at h2
  simpa using h2

/-- C16 as amended, at an instance: after a `clear_cache`, `get_coordinator("p")` is
called twice; the instance 1 is handed out both times. -/
theorem C16_one_live_coordinator_per_path_witness :
    ("p", 1) ∈ (Registry.empty.steps 0
      [RegistryStep.get_coordinator "p", RegistryStep.clear_cache,
       RegistryStep.get_coordinator "p", RegistryStep.get_coordinator "p"]).handed_out ∧
    ((Registry.empty.steps 0
      [RegistryStep.get_coordinator "p", RegistryStep.clear_cache,
       RegistryStep.get_coordinator "p", RegistryStep.get_coordinator "p"]).lock 1).isSome =
      true ∧
    (1 : Nat) = 1 :=
  ⟨by decide, by decide,
    C16_one_live_coordinator_per_path 0
      [RegistryStep.get_coordinator "p", RegistryStep.clear_cache,
       RegistryStep.get_coordinator "p", RegistryStep.get_coordinator "p"] "p" 1 1
      (by decide) (by decide) (by decide) (by decide)⟩

/-- C16 as stated fails: `get_coordinator("p")` returns the instance 0, which its caller
keeps; `clear_cache()` empties the map; `get_coordinator("p")` finds no entry and
returns a new instance 1. Both instances were handed out for "p" and both are alive. -/
theorem C16_clear_cache_counterexample :
    (Registry.empty.get_coordinator "p").2 = 0 ∧
    ((Registry.empty.get_coordinator "p").1.clear_cache.1.get_coordinator "p").2 = 1 ∧
    (((Registry.empty.get_coordinator "p").1.clear_cache.1.get_coordinator "p").1.lock
      0).isSome = true ∧
    (((Registry.empty.get_coordinator "p").1.clear_cache.1.get_coordinator "p").1.lock
      1).isSome = true ∧
    Registry.empty.steps 0 [RegistryStep.get_coordinator "p", RegistryStep.clear_cache,
        RegistryStep.get_coordinator "p"] =
      ((Registry.empty.get_coordinator "p").1.clear_cache.1.get_coordinator "p").1 := by
  decide

/-- C18. At most one live cached handle per thread: in every state that a new
coordinator reaches by `get_realm` and `unregister_realm` calls and releases of handles,
in any order, every entry of the cached-handle list is a handle opened with
`cache = true`, for every thread at most one entry is live and owned by that thread, and
so two live entries owned by the same thread are one and the same. -/
theorem C18_one_live_cached_handle_per_thread (NotVersioned : Nat)
    (sts : List CoordinatorStep) :
    (∀ w ∈ (RealmCoordinator.new.steps NotVersioned sts).m_cached_realms,
      w.realm.config.cache = true) ∧
    (∀ t, ((RealmCoordinator.new.steps NotVersioned sts).m_cached_realms.filter
      (live_for_thread t)).length ≤ 1) ∧
    (∀ (i j : Nat) (w1 w2 : WeakRealm),
      (RealmCoordinator.new.steps NotVersioned sts).m_cached_realms[i]? = some w1 →
      (RealmCoordinator.new.steps NotVersioned sts).m_cached_realms[j]? = some w2 →
      w1.expired = false → w2.expired = false →
      w1.realm.thread_id = w2.realm.thread_id → i = j) := by
  obtain ⟨h1, h2⟩ := steps_keep_one_per_thread NotVersioned sts RealmCoordinator.new
    (by simp [RealmCoordinator.new]) (by simp [RealmCoordinator.new])
  generalize (RealmCoordinator.new.steps NotVersioned sts).m_cached_realms = l at h1 h2
  refine ⟨h1, fun t => by rw [← List.countP_eq_length_filter]; exact h2 t, ?_⟩
  intro i j w1 w2 hi hj he1 he2 ht
  by_contra hij
  have key : ∀ (t i j : Nat) (a b : WeakRealm), i < j → l[i]? = some a → l[j]? = some b →
      live_for_thread t a = true → live_for_thread t b = true →
      2 ≤ List.countP (live_for_thread t) l := by
    intro t i j a b hlt hi hj hpa hpb
    have ha : (l.take j)[i]? = some a := by
      rw [List.getElem?_take_of_lt hlt]
      exact hi
    have hb : (l.drop j)[0]? = some b := by
      rw [List.getElem?_drop]
      simpa using hj
    have c1 : 0 < List.countP (live_for_thread t) (l.take j) :=
      List.countP_pos_iff.2 ⟨a, List.getElem?_mem ha, hpa⟩
    have c2 : 0 < List.countP (live_for_thread t) (l.drop j) :=
      List.countP_pos_iff.2 ⟨b, List.getElem?_mem hb, hpb⟩
    have hsplit : List.countP (live_for_thread t) l =
        List.countP (live_for_thread t) (l.take j) +
          List.countP (live_for_thread t) (l.drop j) := by
      rw [← List.countP_append, List.take_append_drop]
    omega
  have hp1 : live_for_thread w1.realm.thread_id w1 = true := by simp [live_for_thread, he1]
  have hp2 : live_for_thread w1.realm.thread_id w2 = true := by
    simp [live_for_thread, he2, ht]
  have hcount := h2 w1.realm.thread_id
  rcases Nat.lt_or_gt_of_ne hij with hlt | hlt
  · have := key _ i j w1 w2 hlt hi hj hp1 hp2
    omega
  · have := key _ j i w2 w1 hlt hj hi hp2 hp1
    omega

/-- C19. Postcondition of `prepare_handover`: on an attached query whose producer is at
version `sg.version` (the two lists having the same length) the call returns; for every
observer, the slot of the observer holds a new capsule stamped `sg.version` if
`m_did_update` holds, or `first_run` holds for the observer, or the slot held a capsule
of another version, and is left as it was otherwise; afterwards every pending capsule
carries the version `sg.version`, every observer has `first_run = false`, the observers
are otherwise the same, and `version()` returns `sg.version`. -/
theorem C19_prepare_handover_postcondition (q : AsyncQuery) (sg : SharedGroup)
    (hsg : q.m_sg = some sg) (hlen : q.m_callbacks.length = q.m_tv_handover.length) :
    ∃ q1 ev, q.prepare_handover = some (q1, ev) ∧
      (∀ (i : Nat) (callback : AsyncQueryCallback) (tv : Option Handover),
        q.m_callbacks[i]? = some callback → q.m_tv_handover[i]? = some tv →
        ((q.m_did_update = true ∨ callback.first_run = true ∨
            ∃ t, tv = some t ∧ t.version ≠ sg.version) →
          q1.m_tv_handover[i]? = some (some { version := sg.version, payload := q.m_tv.data })) ∧
        (¬ (q.m_did_update = true ∨ callback.first_run = true ∨
            ∃ t, tv = some t ∧ t.version ≠ sg.version) →
          q1.m_tv_handover[i]? = some tv) ∧
        q1.m_callbacks[i]? = some { callback with first_run := false }) ∧
      q1.m_callbacks.length = q.m_callbacks.length ∧
      q1.m_tv_handover.length = q.m_tv_handover.length ∧
      (∀ (i : Nat) (t : Handover), q1.m_tv_handover[i]? = some (some t) →
        t.version = sg.version) ∧
      (∀ callback ∈ q1.m_callbacks, callback.first_run = false) ∧
      q1.version = sg.version := by
  obtain ⟨q1, ev, h1, h2, h3, h4, h5⟩ := prepare_handover_spec q sg hsg hlen
  have hcb : ∀ (i : Nat) (callback : AsyncQueryCallback) (tv : Option Handover),
      q.m_callbacks[i]? = some callback → q.m_tv_handover[i]? = some tv →
      q1.m_callbacks[i]? = some { callback with first_run := false } := by
    intro i callback tv hcb htv
    obtain ⟨e1, -⟩ := h5 i callback tv hcb htv
    rw [e1]
    split
    · rfl
    · rename_i hneed
      have hfr : callback.first_run = false := by
        cases hf : callback.first_run
        · rfl
        · exact absurd ((needs_handover_iff _ _ _ _).2 (Or.inr (Or.inl hf))) hneed
      cases callback with
      | mk id thread first_run =>
        simp only at hfr
        subst hfr
        rfl
  refine ⟨q1, ev, h1, fun i callback tv hcbi htvi => ⟨fun hc => ?_, fun hc => ?_,
    hcb i callback tv hcbi htvi⟩, h3, h4, prepare_handover_stamped q sg q1 ev hsg hlen h1, ?_,
    by rw [h2]; rfl⟩
  · obtain ⟨-, e2⟩ := h5 i callback tv hcbi htvi
    rw [e2, if_pos ((needs_handover_iff _ _ _ _).2 hc)]
    rfl
  · obtain ⟨-, e2⟩ := h5 i callback tv hcbi htvi
    rw [e2, if_neg (fun hn => hc ((needs_handover_iff _ _ _ _).1 hn))]
  · intro callback hmem
    obtain ⟨i, hi⟩ := List.mem_iff_getElem?.1 hmem
    have hi1 : i < q.m_callbacks.length := by
      rw [← h3]; exact (List.getElem?_eq_some.1 hi).1
    have hi2 : i < q.m_tv_handover.length := by omega
    have := hcb i _ _ (List.getElem?_eq_getElem hi1) (List.getElem?_eq_getElem hi2)
    rw [hi] at this
    simp only [Option.some.injEq] at this
    rw [this]

/-- C19, at an instance: producer at version 5, nothing new; a first-run observer with
an empty slot, an observer with a capsule of version 4 and one with a capsule of
version 5. -/
theorem C19_prepare_handover_postcondition_witness :
    ∃ q1 ev,
      ({ AsyncQuery.new ⟨0, 0⟩ with
          m_callbacks := [⟨1, 1, true⟩, ⟨2, 1, false⟩, ⟨3, 2, false⟩]
          m_tv_handover := [none, some ⟨4, 8⟩, some ⟨5, 9⟩]
          m_sg := some ⟨5⟩ } : AsyncQuery).prepare_handover = some (q1, ev) ∧
      (∀ (i : Nat) (t : Handover), q1.m_tv_handover[i]? = some (some t) →
        t.version = (⟨5⟩ : SharedGroup).version) ∧
      (∀ callback ∈ q1.m_callbacks, callback.first_run = false) ∧
      q1.version = (⟨5⟩ : SharedGroup).version :=
  let ⟨q1, ev, h1, _, _, _, h5, h6, h7⟩ := C19_prepare_handover_postcondition
    { AsyncQuery.new ⟨0, 0⟩ with
        m_callbacks := [⟨1, 1, true⟩, ⟨2, 1, false⟩, ⟨3, 2, false⟩]
        m_tv_handover := [none, some ⟨4, 8⟩, some ⟨5, 9⟩]
        m_sg := some ⟨5⟩ } ⟨5⟩ rfl rfl
  ⟨q1, ev, h1, h5, h6, h7⟩

/-- C20. Index alignment is an invariant of `AsyncQuery`: in every state `q` that a new
query reaches by a sequence of member function calls (each of them defined), the
observer list and the list of pending capsules have the same length; in such a state
`add_callback`, `set_error` and `get_results` are defined, and so are `prepare_handover`
on an attached query and `remove_callback` of a registered observer or, while an error
is set, of any observer; and `add_callback` on a query without error appends the
observer at the end with an empty slot, the earlier pairs staying as they were. -/
theorem C20_index_alignment (handover : Handover) (ops : List Operation) (q : AsyncQuery)
    (h : (AsyncQuery.new handover).apply_all ops = some q) :
    q.m_callbacks.length = q.m_tv_handover.length ∧
    ((∀ thread sg, ∃ q1, q.apply (Operation.get_results thread sg) = some q1) ∧
      (q.m_sg ≠ none → ∃ q1, q.apply Operation.prepare_handover = some q1) ∧
      (∀ callback ∈ q.m_callbacks,
        ∃ q1, q.apply (Operation.remove_callback callback.id) = some q1) ∧
      (q.m_error ≠ none →
        ∀ callback, ∃ q1, q.apply (Operation.remove_callback callback) = some q1)) ∧
    ∀ callback, q.m_error = none →
      (q.add_callback callback).1.m_callbacks = q.m_callbacks ++ [callback] ∧
      (q.add_callback callback).1.m_tv_handover = q.m_tv_handover ++ [none] ∧
      (q.add_callback callback).1.m_callbacks.zip (q.add_callback callback).1.m_tv_handover =
        q.m_callbacks.zip q.m_tv_handover ++ [(callback, none)] := by
  have hlen := apply_all_keeps_alignment ops (AsyncQuery.new handover) q rfl h
  obtain ⟨-, -, d3, d4, d5, d6⟩ := apply_defined q hlen
  refine ⟨hlen, ⟨d3, d4, d5, d6⟩, fun callback herr => ?_⟩
  have hadd : (q.add_callback callback).1 =
      { q with m_callbacks := q.m_callbacks ++ [callback],
               m_tv_handover := q.m_tv_handover ++ [none] } := by
    simp only [AsyncQuery.add_callback, herr]
  rw [hadd]
  refine ⟨rfl, rfl, ?_⟩
  simp only []
  rw [List.zip_append hlen]
  rfl

/-- C20, at an instance: two observers are added, the query is attached and publishes,
thread 1 collects, the first observer is removed and a third one is added. -/
theorem C20_index_alignment_witness :
    ([⟨2, 2, false⟩, ⟨3, 1, true⟩] : List AsyncQueryCallback).length =
      ([some ⟨5, 0⟩, none] : List (Option Handover)).length :=
  (C20_index_alignment ⟨0, 0⟩
    [Operation.add_callback ⟨1, 1, true⟩, Operation.add_callback ⟨2, 2, true⟩,
     Operation.attach_to ⟨5⟩, Operation.prepare_handover, Operation.get_results 1 ⟨5⟩,
     Operation.remove_callback 1, Operation.add_callback ⟨3, 1, true⟩]
    { m_query_handover := none, m_query := some 0, m_tv := ⟨false, 0⟩,
      m_callbacks := [⟨2, 2, false⟩, ⟨3, 1, true⟩], m_tv_handover := [some ⟨5, 0⟩, none],
      m_version := 5, m_sg := some ⟨5⟩, m_error := none, m_did_update := false }
    (by decide)).1

end realm
